import Mathlib

/-!
Verification of the consent reconciliation engine of the
fides-inline-consent-example repository.

The development shallowly embeds the TypeScript source:
* strings are `List Char`;
* the browser cookie jar for the single `fides_consent` slot is an
  `Option Str` holding the raw stored value;
* `encodeURIComponent` / `decodeURIComponent` are modelled concretely,
  including UTF-8 percent escaping;
* `JSON.stringify` / `JSON.parse` are modelled by an executable
  serializer and parser over a `Json` value type, with a proved
  round-trip theorem;
* JavaScript exceptions are modelled by `Except Unit` results: a thrown
  exception that the source does not catch is an `Except.error`;
* the network is modelled by oracle arguments (the responses) and an
  emitted trace of outbound calls.
-/

/-- Strings are modelled at the character-list level so that the
cookie-splitting and percent-coding logic of the source can be traced
faithfully. -/
abbrev Str := List Char

/-- Coerce a Lean string literal to the character-list representation. -/
def strL (s : String) : Str := s.data

/-- ASCII decimal digit test, mirroring the JSON number grammar. -/
def isDigitC (c : Char) : Bool := 48 ≤ c.toNat && c.toNat ≤ 57

/-! ## Percent coding: `encodeURIComponent` / `decodeURIComponent` -/

/-- Characters that `encodeURIComponent` leaves unescaped. -/
def isUnreservedURI (c : Char) : Bool :=
  ('A' ≤ c && c ≤ 'Z') || ('a' ≤ c && c ≤ 'z') || ('0' ≤ c && c ≤ '9') ||
  c = '-' || c = '_' || c = '.' || c = '!' || c = '~' || c = '*' ||
  c = '\'' || c = '(' || c = ')'

/-- Uppercase hexadecimal digit, as emitted by `encodeURIComponent`. -/
def hexDigitU (n : Nat) : Char :=
  if n < 10 then Char.ofNat (48 + n) else Char.ofNat (55 + n)

/-- Lowercase hexadecimal digit, as emitted by `JSON.stringify` unicode
escapes. -/
def hexDigitL (n : Nat) : Char :=
  if n < 10 then Char.ofNat (48 + n) else Char.ofNat (87 + n)

/-- Value of a hexadecimal digit; both cases accepted, as by
`decodeURIComponent` and `JSON.parse`. -/
def hexVal (c : Char) : Option Nat :=
  if '0' ≤ c && c ≤ '9' then some (c.toNat - 48)
  else if 'A' ≤ c && c ≤ 'F' then some (c.toNat - 55)
  else if 'a' ≤ c && c ≤ 'f' then some (c.toNat - 87)
  else none

/-- UTF-8 byte sequence of a unicode scalar value. -/
def utf8Bytes (n : Nat) : List Nat :=
  if n < 0x80 then [n]
  else if n < 0x800 then [0xC0 + n / 0x40, 0x80 + n % 0x40]
  else if n < 0x10000 then
    [0xE0 + n / 0x1000, 0x80 + n / 0x40 % 0x40, 0x80 + n % 0x40]
  else
    [0xF0 + n / 0x40000, 0x80 + n / 0x1000 % 0x40, 0x80 + n / 0x40 % 0x40,
     0x80 + n % 0x40]

/-- Percent escape of one byte. -/
def pctByte (b : Nat) : Str := ['%', hexDigitU (b / 16), hexDigitU (b % 16)]

/-- Percent escapes of a byte sequence. -/
def pctBytes : List Nat → Str
  | [] => []
  | b :: bs => pctByte b ++ pctBytes bs

/-- `encodeURIComponent` on one character. -/
def encodeChar (c : Char) : Str :=
  if isUnreservedURI c then [c] else pctBytes (utf8Bytes c.toNat)

/-- Model of `encodeURIComponent`. -/
def encodeURIComponentL : Str → Str
  | [] => []
  | c :: rest => encodeChar c ++ encodeURIComponentL rest

/-- Token stream of a percent-coded string: literal characters and
escaped bytes. -/
inductive PctTok where
  | lit (c : Char)
  | byte (b : Nat)
deriving DecidableEq

/-- First pass of `decodeURIComponent`: read the percent escapes. -/
def pctTokens : Str → Option (List PctTok)
  | [] => some []
  | c :: rest =>
    if c = '%' then
      match rest with
      | c1 :: c2 :: r2 =>
        match hexVal c1, hexVal c2 with
        | some h, some l => (pctTokens r2).map (PctTok.byte (16 * h + l) :: ·)
        | _, _ => none
      | _ => none
    else (pctTokens rest).map (PctTok.lit c :: ·)

/-- Value of a UTF-8 continuation byte token. -/
def contVal : PctTok → Option Nat
  | .byte b => if 0x80 ≤ b && b < 0xC0 then some (b - 0x80) else none
  | .lit _ => none

/-! Second pass of `decodeURIComponent`: combine escaped byte runs into
characters, UTF-8 style. -/
mutual
/-- UTF-8 decoding of the token stream. -/
def utf8Decode : List PctTok → Option Str
  | [] => some []
  | .lit c :: ts => (utf8Decode ts).map (c :: ·)
  | .byte b :: ts =>
    if b < 0x80 then (utf8Decode ts).map (Char.ofNat b :: ·)
    else if b < 0xC0 then none
    else if b < 0xE0 then utf8Cont1 b ts
    else if b < 0xF0 then utf8Cont2 b ts
    else if b < 0xF8 then utf8Cont3 b ts
    else none
def utf8Cont1 : Nat → List PctTok → Option Str
  | b, t1 :: ts2 =>
    match contVal t1 with
    | some x1 => (utf8Decode ts2).map (Char.ofNat ((b - 0xC0) * 0x40 + x1) :: ·)
    | none => none
  | _, [] => none
def utf8Cont2 : Nat → List PctTok → Option Str
  | b, t1 :: t2 :: ts2 =>
    match contVal t1, contVal t2 with
    | some x1, some x2 =>
      (utf8Decode ts2).map (Char.ofNat ((b - 0xE0) * 0x1000 + x1 * 0x40 + x2) :: ·)
    | _, _ => none
  | _, _ => none
def utf8Cont3 : Nat → List PctTok → Option Str
  | b, t1 :: t2 :: t3 :: ts2 =>
    match contVal t1, contVal t2, contVal t3 with
    | some x1, some x2, some x3 =>
      (utf8Decode ts2).map
        (Char.ofNat ((b - 0xF0) * 0x40000 + x1 * 0x1000 + x2 * 0x40 + x3) :: ·)
    | _, _, _ => none
  | _, _ => none
end

/-- Model of `decodeURIComponent`; `none` models a thrown `URIError`. -/
def pctDecode (s : Str) : Option Str :=
  (pctTokens s).bind utf8Decode

theorem hexVal_hexDigitU : ∀ n < 16, hexVal (hexDigitU n) = some n := by decide

theorem hexVal_hexDigitL : ∀ n < 16, hexVal (hexDigitL n) = some n := by decide

/-- Unfolding the pass-through case of `pctTokens`. -/
theorem pctTokens_cons_ne (c : Char) (rest : Str) (hc : ¬ c = '%') :
    pctTokens (c :: rest) = (pctTokens rest).map (PctTok.lit c :: ·) := by
  cases rest with
  | nil => simp only [pctTokens, if_neg hc]
  | cons c1 r1 =>
    cases r1 with
    | nil => simp only [pctTokens, if_neg hc]
    | cons c2 r2 => simp only [pctTokens, if_neg hc]

/-- Unfolding the literal case of `utf8Decode`. -/
theorem utf8Decode_lit (c : Char) (ts : List PctTok) :
    utf8Decode (PctTok.lit c :: ts) = (utf8Decode ts).map (c :: ·) := rfl

/-- Decoding a string without percent signs is the identity. -/
theorem pctDecode_no_pct (s : Str) (h : '%' ∉ s) : pctDecode s = some s := by
  induction s with
  | nil => rfl
  | cons c rest ih =>
    have hc : ¬ (c = '%') := by
      intro he; exact h (he ▸ List.mem_cons_self c rest)
    have hr : '%' ∉ rest := fun hm => h (List.mem_cons_of_mem c hm)
    have hr' := ih hr
    unfold pctDecode at hr'
    cases htok : pctTokens rest with
    | none => rw [htok] at hr'; simp at hr'
    | some ts =>
      rw [htok] at hr'
      simp only [Option.some_bind] at hr'
      unfold pctDecode
      rw [pctTokens_cons_ne c rest hc, htok]
      simp only [Option.map_some', Option.some_bind, utf8Decode_lit, hr']

/-- Tokens produced for one encoded character. -/
def tokensOfChar (c : Char) : List PctTok :=
  if isUnreservedURI c then [PctTok.lit c]
  else (utf8Bytes c.toNat).map PctTok.byte

/-- Token stream of a whole encoded string. -/
def tokensOfStr : Str → List PctTok
  | [] => []
  | c :: cs => tokensOfChar c ++ tokensOfStr cs

theorem charToNat_lt (c : Char) : c.toNat < 0x110000 := by
  have h := c.valid
  rcases h with h | ⟨h1, h2⟩
  · exact Nat.lt_trans h (by norm_num)
  · exact h2

theorem utf8Bytes_lt (n : Nat) (hn : n < 0x110000) :
    ∀ b ∈ utf8Bytes n, b < 256 := by
  intro b hb
  unfold utf8Bytes at hb
  by_cases h1 : n < 0x80
  · simp only [if_pos h1, List.mem_singleton] at hb; omega
  · by_cases h2 : n < 0x800
    · simp only [if_neg h1, if_pos h2, List.mem_cons, List.mem_singleton,
        List.not_mem_nil, or_false] at hb
      rcases hb with h | h <;> omega
    · by_cases h3 : n < 0x10000
      · simp only [if_neg h1, if_neg h2, if_pos h3, List.mem_cons,
          List.not_mem_nil, or_false] at hb
        rcases hb with h | h | h <;> omega
      · simp only [if_neg h1, if_neg h2, if_neg h3, List.mem_cons,
          List.not_mem_nil, or_false] at hb
        rcases hb with h | h | h | h <;> omega

theorem pctTokens_pct (c1 c2 : Char) (r : Str) (h l : Nat)
    (h1 : hexVal c1 = some h) (h2 : hexVal c2 = some l) :
    pctTokens ('%' :: c1 :: c2 :: r) =
      (pctTokens r).map (PctTok.byte (16 * h + l) :: ·) := by
  simp [pctTokens, h1, h2]

theorem pctTokens_pctByte (b : Nat) (hb : b < 256) (r : Str) :
    pctTokens (pctByte b ++ r) = (pctTokens r).map (PctTok.byte b :: ·) := by
  have h1 : hexVal (hexDigitU (b / 16)) = some (b / 16) :=
    hexVal_hexDigitU _ (by omega)
  have h2 : hexVal (hexDigitU (b % 16)) = some (b % 16) :=
    hexVal_hexDigitU _ (by omega)
  have hshape : pctByte b ++ r =
      '%' :: hexDigitU (b / 16) :: hexDigitU (b % 16) :: r := rfl
  rw [hshape, pctTokens_pct _ _ _ _ _ h1 h2]
  have : 16 * (b / 16) + b % 16 = b := by omega
  rw [this]

theorem pctTokens_bytes (bs : List Nat) (hb : ∀ b ∈ bs, b < 256) (r : Str) :
    pctTokens (pctBytes bs ++ r) =
      (pctTokens r).map (bs.map PctTok.byte ++ ·) := by
  induction bs with
  | nil =>
    simp only [pctBytes, List.nil_append, List.map_nil]
    cases pctTokens r <;> simp
  | cons b bs ih =>
    have hbb : b < 256 := hb b (List.mem_cons_self b bs)
    have hbs : ∀ x ∈ bs, x < 256 := fun x hx => hb x (List.mem_cons_of_mem b hx)
    simp only [pctBytes, List.append_assoc]
    rw [pctTokens_pctByte b hbb _, ih hbs]
    cases pctTokens r <;> simp

theorem pctTokens_encodeChar (c : Char) (r : Str) :
    pctTokens (encodeChar c ++ r) = (pctTokens r).map (tokensOfChar c ++ ·) := by
  by_cases hu : isUnreservedURI c
  · have hc : ¬ c = '%' := by
      intro he
      subst he
      exact absurd hu (by decide)
    simp only [encodeChar, tokensOfChar, if_pos hu, List.cons_append,
      List.nil_append, List.singleton_append]
    rw [pctTokens_cons_ne c r hc]
  · have hlt : ∀ b ∈ utf8Bytes c.toNat, b < 256 :=
      utf8Bytes_lt c.toNat (charToNat_lt c)
    simp only [encodeChar, tokensOfChar, if_neg hu]
    exact pctTokens_bytes _ hlt r

theorem utf8Decode_byte (b : Nat) (ts : List PctTok) :
    utf8Decode (PctTok.byte b :: ts) =
      if b < 0x80 then (utf8Decode ts).map (Char.ofNat b :: ·)
      else if b < 0xC0 then none
      else if b < 0xE0 then utf8Cont1 b ts
      else if b < 0xF0 then utf8Cont2 b ts
      else if b < 0xF8 then utf8Cont3 b ts
      else none := by
  rw [utf8Decode]

theorem contVal_byte (b : Nat) (h1 : 0x80 ≤ b) (h2 : b < 0xC0) :
    contVal (PctTok.byte b) = some (b - 0x80) := by
  simp only [contVal, Bool.and_eq_true, decide_eq_true_eq]
  rw [if_pos ⟨h1, h2⟩]

theorem utf8Cont1_byte (b b2 : Nat) (ts : List PctTok)
    (h : 0x80 ≤ b2 ∧ b2 < 0xC0) :
    utf8Cont1 b (PctTok.byte b2 :: ts) =
      (utf8Decode ts).map (Char.ofNat ((b - 0xC0) * 0x40 + (b2 - 0x80)) :: ·) := by
  rw [utf8Cont1, contVal_byte b2 h.1 h.2]

theorem utf8Cont2_byte (b b2 b3 : Nat) (ts : List PctTok)
    (h2 : 0x80 ≤ b2 ∧ b2 < 0xC0) (h3 : 0x80 ≤ b3 ∧ b3 < 0xC0) :
    utf8Cont2 b (PctTok.byte b2 :: PctTok.byte b3 :: ts) =
      (utf8Decode ts).map
        (Char.ofNat ((b - 0xE0) * 0x1000 + (b2 - 0x80) * 0x40 + (b3 - 0x80)) :: ·) := by
  rw [utf8Cont2, contVal_byte b2 h2.1 h2.2, contVal_byte b3 h3.1 h3.2]

theorem utf8Cont3_byte (b b2 b3 b4 : Nat) (ts : List PctTok)
    (h2 : 0x80 ≤ b2 ∧ b2 < 0xC0) (h3 : 0x80 ≤ b3 ∧ b3 < 0xC0)
    (h4 : 0x80 ≤ b4 ∧ b4 < 0xC0) :
    utf8Cont3 b (PctTok.byte b2 :: PctTok.byte b3 :: PctTok.byte b4 :: ts) =
      (utf8Decode ts).map
        (Char.ofNat ((b - 0xF0) * 0x40000 + (b2 - 0x80) * 0x1000 +
          (b3 - 0x80) * 0x40 + (b4 - 0x80)) :: ·) := by
  rw [utf8Cont3, contVal_byte b2 h2.1 h2.2, contVal_byte b3 h3.1 h3.2,
    contVal_byte b4 h4.1 h4.2]

theorem utf8Decode_tokensOfChar (c : Char) (ts : List PctTok) :
    utf8Decode (tokensOfChar c ++ ts) = (utf8Decode ts).map (c :: ·) := by
  by_cases hu : isUnreservedURI c
  · simp only [tokensOfChar, if_pos hu, List.singleton_append, utf8Decode_lit]
  · simp only [tokensOfChar, if_neg hu]
    have hlt := charToNat_lt c
    by_cases h1 : c.toNat < 0x80
    · have hbytes : utf8Bytes c.toNat = [c.toNat] := by
        unfold utf8Bytes; rw [if_pos h1]
      rw [hbytes]
      simp only [List.map_cons, List.map_nil, List.singleton_append]
      rw [utf8Decode_byte, if_pos h1, Char.ofNat_toNat]
    · by_cases h2 : c.toNat < 0x800
      · have hbytes : utf8Bytes c.toNat =
            [0xC0 + c.toNat / 0x40, 0x80 + c.toNat % 0x40] := by
          unfold utf8Bytes; rw [if_neg h1, if_pos h2]
        rw [hbytes]
        simp only [List.map_cons, List.map_nil, List.cons_append,
          List.nil_append]
        rw [utf8Decode_byte, if_neg (by omega), if_neg (by omega),
          if_pos (by omega), utf8Cont1_byte _ _ _ ⟨by omega, by omega⟩]
        have : (0xC0 + c.toNat / 0x40 - 0xC0) * 0x40 +
            (0x80 + c.toNat % 0x40 - 0x80) = c.toNat := by omega
        rw [this, Char.ofNat_toNat]
      · by_cases h3 : c.toNat < 0x10000
        · have hbytes : utf8Bytes c.toNat =
              [0xE0 + c.toNat / 0x1000, 0x80 + c.toNat / 0x40 % 0x40,
               0x80 + c.toNat % 0x40] := by
            unfold utf8Bytes; rw [if_neg h1, if_neg h2, if_pos h3]
          rw [hbytes]
          simp only [List.map_cons, List.map_nil, List.cons_append,
            List.nil_append]
          rw [utf8Decode_byte, if_neg (by omega), if_neg (by omega),
            if_neg (by omega), if_pos (by omega),
            utf8Cont2_byte _ _ _ _ ⟨by omega, by omega⟩ ⟨by omega, by omega⟩]
          have : (0xE0 + c.toNat / 0x1000 - 0xE0) * 0x1000 +
              (0x80 + c.toNat / 0x40 % 0x40 - 0x80) * 0x40 +
              (0x80 + c.toNat % 0x40 - 0x80) = c.toNat := by omega
          rw [this, Char.ofNat_toNat]
        · have hbytes : utf8Bytes c.toNat =
              [0xF0 + c.toNat / 0x40000, 0x80 + c.toNat / 0x1000 % 0x40,
               0x80 + c.toNat / 0x40 % 0x40, 0x80 + c.toNat % 0x40] := by
            unfold utf8Bytes; rw [if_neg h1, if_neg h2, if_neg h3]
          rw [hbytes]
          simp only [List.map_cons, List.map_nil, List.cons_append,
            List.nil_append]
          rw [utf8Decode_byte, if_neg (by omega), if_neg (by omega),
            if_neg (by omega), if_neg (by omega), if_pos (by omega),
            utf8Cont3_byte _ _ _ _ _ ⟨by omega, by omega⟩
              ⟨by omega, by omega⟩ ⟨by omega, by omega⟩]
          have : (0xF0 + c.toNat / 0x40000 - 0xF0) * 0x40000 +
              (0x80 + c.toNat / 0x1000 % 0x40 - 0x80) * 0x1000 +
              (0x80 + c.toNat / 0x40 % 0x40 - 0x80) * 0x40 +
              (0x80 + c.toNat % 0x40 - 0x80) = c.toNat := by omega
          rw [this, Char.ofNat_toNat]

theorem pctTokens_encode (s : Str) :
    pctTokens (encodeURIComponentL s) = some (tokensOfStr s) := by
  suffices h : ∀ r, pctTokens (encodeURIComponentL s ++ r) =
      (pctTokens r).map (tokensOfStr s ++ ·) by
    have := h []
    rw [List.append_nil] at this
    rw [this]
    simp [pctTokens]
  induction s with
  | nil => intro r; simp [encodeURIComponentL, tokensOfStr]
  | cons c cs ih =>
    intro r
    have hsh : encodeURIComponentL (c :: cs) ++ r =
        encodeChar c ++ (encodeURIComponentL cs ++ r) := by
      simp [encodeURIComponentL, List.append_assoc]
    rw [hsh, pctTokens_encodeChar, ih r]
    cases pctTokens r <;> simp [tokensOfStr]

theorem utf8Decode_tokensOfStr (s : Str) :
    utf8Decode (tokensOfStr s) = some s := by
  induction s with
  | nil => rfl
  | cons c cs ih =>
    show utf8Decode (tokensOfChar c ++ tokensOfStr cs) = some (c :: cs)
    rw [utf8Decode_tokensOfChar, ih, Option.map_some']

/-- Round trip: decoding an encoded string restores it exactly. -/
theorem pctDecode_encode (s : Str) :
    pctDecode (encodeURIComponentL s) = some s := by
  unfold pctDecode
  rw [pctTokens_encode, Option.some_bind, utf8Decode_tokensOfStr]

theorem mem_pctBytes (bs : List Nat) (hlt : ∀ b ∈ bs, b < 256) (x : Char)
    (hx : x ∈ pctBytes bs) : x = '%' ∨ ∃ n < 16, x = hexDigitU n := by
  induction bs with
  | nil => simp [pctBytes] at hx
  | cons b rest ih =>
    have hb : b < 256 := hlt b (List.mem_cons_self b rest)
    have hrest : ∀ y ∈ rest, y < 256 := fun y hy =>
      hlt y (List.mem_cons_of_mem b hy)
    simp only [pctBytes, List.mem_append] at hx
    rcases hx with hx | hx
    · simp only [pctByte, List.mem_cons, List.not_mem_nil, or_false] at hx
      rcases hx with h | h | h
      · exact Or.inl h
      · exact Or.inr ⟨b / 16, by omega, h⟩
      · exact Or.inr ⟨b % 16, by omega, h⟩
    · exact ih hrest hx

/-- Characters of an encoded string: unreserved, percent, or an uppercase
hexadecimal digit. -/
theorem mem_encodeChar (c x : Char) (hx : x ∈ encodeChar c) :
    isUnreservedURI x ∨ x = '%' ∨ ∃ n < 16, x = hexDigitU n := by
  unfold encodeChar at hx
  by_cases hu : isUnreservedURI c
  · rw [if_pos hu, List.mem_singleton] at hx
    exact Or.inl (hx ▸ hu)
  · rw [if_neg hu] at hx
    rcases mem_pctBytes _ (utf8Bytes_lt c.toNat (charToNat_lt c)) x hx with
      h | h
    · exact Or.inr (Or.inl h)
    · exact Or.inr (Or.inr h)

theorem encodeURIComponent_avoid (s : Str) (a : Char)
    (ha1 : isUnreservedURI a = false) (ha2 : ¬ a = '%')
    (ha3 : ∀ n < 16, ¬ a = hexDigitU n) : a ∉ encodeURIComponentL s := by
  intro hmem
  induction s with
  | nil => simp [encodeURIComponentL] at hmem
  | cons c cs ih =>
    simp only [encodeURIComponentL, List.mem_append] at hmem
    rcases hmem with h | h
    · rcases mem_encodeChar c a h with h1 | h2 | ⟨n, hn, h3⟩
      · rw [ha1] at h1; exact Bool.noConfusion h1
      · exact ha2 h2
      · exact ha3 n hn h3
    · exact ih h

/-! ## JavaScript `String.split` with a string separator -/

/-- Boolean prefix test on character lists. -/
def isPre : Str → Str → Bool
  | [], _ => true
  | _ :: _, [] => false
  | p :: ps, x :: xs => p = x && isPre ps xs

/-- Does `sep` occur as a contiguous substring? -/
def containsSub (sep : Str) : Str → Bool
  | [] => isPre sep []
  | x :: xs => isPre sep (x :: xs) || containsSub sep xs

/-- Prepend a character to the first segment of a split result. -/
def consHd (c : Char) : List Str → List Str
  | [] => [[c]]
  | s :: ss => (c :: s) :: ss

/-- Fuelled worker for `String.split`. -/
def splitGo (sep : Str) : Nat → Str → List Str
  | _, [] => [[]]
  | 0, xs => [xs]
  | fuel + 1, x :: xs =>
    if isPre sep (x :: xs) then
      [] :: splitGo sep fuel (List.drop (sep.length - 1) xs)
    else consHd x (splitGo sep fuel xs)

/-- Model of JavaScript `String.split` with a string separator. -/
def splitOnL (sep xs : Str) : List Str := splitGo sep xs.length xs

theorem isPre_append_self (p r : Str) : isPre p (p ++ r) = true := by
  induction p with
  | nil => rfl
  | cons c cs ih => simp [isPre, ih]

theorem containsSub_of_head_notmem (d : Char) (ds v : Str) (h : d ∉ v) :
    containsSub (d :: ds) v = false := by
  induction v with
  | nil => rfl
  | cons x xs ih =>
    have hdx : ¬ (d = x) := fun he => h (he ▸ List.mem_cons_self x xs)
    have hxs : d ∉ xs := fun hm => h (List.mem_cons_of_mem x hm)
    simp [containsSub, isPre, hdx, ih hxs]

theorem splitGo_no_occ (sep : Str) (xs : Str)
    (h : containsSub sep xs = false) (fuel : Nat) :
    splitGo sep fuel xs = [xs] := by
  induction xs generalizing fuel with
  | nil => cases fuel <;> rfl
  | cons x rest ih =>
    have hpre : isPre sep (x :: rest) = false := by
      simp only [containsSub, Bool.or_eq_false_iff] at h
      exact h.1
    have hrest : containsSub sep rest = false := by
      simp only [containsSub, Bool.or_eq_false_iff] at h
      exact h.2
    cases fuel with
    | zero => rfl
    | succ f =>
      show (if isPre sep (x :: rest) = true then _ else _) = _
      rw [hpre]
      simp only [Bool.false_eq_true, if_false]
      rw [ih hrest f]
      rfl

theorem splitGo_append_once (d : Char) (ds : Str) (v : Str)
    (h : containsSub (d :: ds) v = false) (fuel : Nat) :
    splitGo (d :: ds) (fuel + 1) ((d :: ds) ++ v) = [[], v] := by
  show (if isPre (d :: ds) (d :: (ds ++ v)) = true then _ else _) = _
  rw [show d :: (ds ++ v) = (d :: ds) ++ v from rfl, isPre_append_self]
  simp only [if_true]
  have hdrop : List.drop ((d :: ds).length - 1) (ds ++ v) = v := by
    simp only [List.length_cons, Nat.add_sub_cancel]
    exact List.drop_left ds v
  simp only [List.append_eq]
  rw [hdrop, splitGo_no_occ (d :: ds) v h fuel]

/-! ## The persisted `fides_consent` slot (the cookie jar) -/

/-- Name of the single cookie used by the application. -/
def fidesName : Str := strL "fides_consent"

/-- The `document.cookie` setter: the assigned line is truncated at the
first ';' (cutting off the attributes), split at the first '=' into name
and value, and the value is stored when the name matches the slot. -/
def browserWrite (line : Str) (jar : Option Str) : Option Str :=
  let pair := line.takeWhile (fun c => c != ';')
  let name := pair.takeWhile (fun c => c != '=')
  let value := (pair.dropWhile (fun c => c != '=')).drop 1
  if name = fidesName then some value else jar

/-- The `document.cookie` getter rendering of the jar. -/
def docCookieStr (jar : Option Str) : Str :=
  match jar with
  | none => []
  | some v => fidesName ++ '=' :: v

/-- The cookie attribute tail the source appends on every write. -/
def cookieAttrs : Str := strL "; path=/; max-age=31536000"

/-- The full line assigned to `document.cookie` by the source when
storing value `v` in the `fides_consent` slot. -/
def cookieLine (v : Str) : Str := fidesName ++ '=' :: (v ++ cookieAttrs)

/-- Model of `getCookie` (part_001 lines 95-101): builds `"; " +
document.cookie`, splits on `"; name="`, and if exactly two parts result,
takes the last part up to the next ';' and percent-decodes it
(`decodeCookie`). The error is a `URIError` escaping from
`decodeURIComponent`. -/
def getCookie (name : Str) (jar : Option Str) : Except Unit (Option Str) :=
  let value := ';' :: ' ' :: docCookieStr jar
  let parts := splitOnL (';' :: ' ' :: (name ++ ['='])) value
  if parts.length = 2 then
    match pctDecode ((splitOnL [';'] (parts.getLastD [])).headD []) with
    | none => Except.error ()
    | some d => Except.ok (some d)
  else Except.ok none

theorem takeWhile_append_all {p : Char → Bool} (l1 l2 : Str)
    (h : ∀ c ∈ l1, p c = true) :
    (l1 ++ l2).takeWhile p = l1 ++ l2.takeWhile p := by
  induction l1 with
  | nil => simp
  | cons c cs ih =>
    have hc : p c = true := h c (List.mem_cons_self c cs)
    simp only [List.cons_append, List.takeWhile, hc, List.append_eq]
    rw [ih (fun x hx => h x (List.mem_cons_of_mem c hx))]

theorem takeWhile_cons_neg {p : Char → Bool} (c : Char) (l : Str)
    (h : p c = false) : (c :: l).takeWhile p = [] := by
  simp only [List.takeWhile, h]

theorem dropWhile_append_all {p : Char → Bool} (l1 l2 : Str)
    (h : ∀ c ∈ l1, p c = true) :
    (l1 ++ l2).dropWhile p = l2.dropWhile p := by
  induction l1 with
  | nil => simp
  | cons c cs ih =>
    have hc : p c = true := h c (List.mem_cons_self c cs)
    simp only [List.cons_append, List.dropWhile, hc, List.append_eq]
    exact ih (fun x hx => h x (List.mem_cons_of_mem c hx))

theorem dropWhile_cons_neg {p : Char → Bool} (c : Char) (l : Str)
    (h : p c = false) : (c :: l).dropWhile p = c :: l := by
  simp only [List.dropWhile, h]

theorem fidesName_no_semi : ∀ c ∈ fidesName, (c != ';') = true := by decide

theorem fidesName_no_eq : ∀ c ∈ fidesName, (c != '=') = true := by decide

/-- Storing `cookieLine v` writes exactly `v` into the slot, provided the
value contains no ';'. -/
theorem browserWrite_cookieLine (v : Str) (jar : Option Str)
    (hv : ';' ∉ v) : browserWrite (cookieLine v) jar = some v := by
  simp only [browserWrite, cookieLine]
  have hvs : ∀ c ∈ v, (c != ';') = true := by
    intro c hc
    have : ¬ (c = ';') := fun he => hv (he ▸ hc)
    simpa [bne] using this
  have hattrs : cookieAttrs = ';' :: strL " path=/; max-age=31536000" := rfl
  have hpair : (fidesName ++ '=' :: (v ++ cookieAttrs)).takeWhile
      (fun c => c != ';') = fidesName ++ '=' :: v := by
    rw [takeWhile_append_all _ _ fidesName_no_semi]
    congr 1
    show List.takeWhile _ ('=' :: (v ++ cookieAttrs)) = _
    simp only [List.takeWhile, show (('=' : Char) != ';') = true from by decide]
    rw [takeWhile_append_all _ _ hvs, hattrs,
      takeWhile_cons_neg _ _ (by decide), List.append_nil]
  rw [hpair]
  have hname : (fidesName ++ '=' :: v).takeWhile (fun c => c != '=') =
      fidesName := by
    rw [takeWhile_append_all _ _ fidesName_no_eq,
      takeWhile_cons_neg _ _ (by decide), List.append_nil]
  have hvalue : ((fidesName ++ '=' :: v).dropWhile (fun c => c != '=')).drop 1 =
      v := by
    rw [dropWhile_append_all _ _ fidesName_no_eq,
      dropWhile_cons_neg _ _ (by decide)]
    rfl
  rw [hname, hvalue, if_pos rfl]

theorem fidesName_len : fidesName.length = 13 := by decide

/-- Reading an empty jar yields no cookie value. -/
theorem getCookie_none : getCookie fidesName none = Except.ok none := rfl

/-- Reading a jar holding `v` (no ';' inside) percent-decodes `v`. -/
theorem getCookie_some (v : Str) (hv : ';' ∉ v) :
    getCookie fidesName (some v) =
      match pctDecode v with
      | none => Except.error ()
      | some d => Except.ok (some d) := by
  simp only [getCookie, docCookieStr]
  have hx : ';' :: ' ' :: (fidesName ++ '=' :: v) =
      (';' :: ' ' :: (fidesName ++ ['='])) ++ v := by simp
  have hocc : containsSub (';' :: ' ' :: (fidesName ++ ['='])) v = false :=
    containsSub_of_head_notmem ';' _ v hv
  have hsplit : splitOnL (';' :: ' ' :: (fidesName ++ ['=']))
      (';' :: ' ' :: (fidesName ++ '=' :: v)) = [[], v] := by
    rw [hx]
    unfold splitOnL
    have hlen : ((';' :: ' ' :: (fidesName ++ ['='])) ++ v).length =
        (15 + v.length) + 1 := by
      simp [List.length_append, fidesName_len]
      omega
    rw [hlen]
    exact splitGo_append_once ';' _ v hocc (15 + v.length)
  have hocc2 : containsSub [';'] v = false :=
    containsSub_of_head_notmem ';' [] v hv
  have hsplit2 : splitOnL [';'] v = [v] := by
    unfold splitOnL
    exact splitGo_no_occ [';'] v hocc2 v.length
  rw [hsplit]
  have h1 : ([[], v] : List Str).getLastD [] = v := rfl
  have h2 : ([v] : List Str).headD [] = v := rfl
  rw [if_pos (by rfl : ([[], v] : List Str).length = 2), h1, hsplit2, h2]

/-! ## JSON values, `JSON.stringify` and `JSON.parse` -/

/-- Exponent marker of a JSON number literal. -/
inductive ExpMark where
  | lower
  | upper
deriving DecidableEq

/-- Exponent part of a JSON number literal: marker, optional sign
(`some true` is '-', `some false` is '+'), digits. -/
structure ExpPart where
  mark : ExpMark
  sign : Option Bool
  digits : Str
deriving DecidableEq

/-- A JSON number literal, kept as its exact textual parts so that
serialization is the identity on parsed input. -/
structure NumLit where
  neg : Bool
  ip : Str
  frac : Option Str
  ex : Option ExpPart
deriving DecidableEq

/-- All characters are decimal digits. -/
def allDigits (s : Str) : Bool := s.all isDigitC

/-- Well-formed number literal, mirroring the JSON grammar. -/
def NumLit.wf (n : NumLit) : Bool :=
  allDigits n.ip && !n.ip.isEmpty &&
  (n.ip.length = 1 || n.ip.headD '0' != '0') &&
  (match n.frac with
   | none => true
   | some f => !f.isEmpty && allDigits f) &&
  (match n.ex with
   | none => true
   | some e => !e.digits.isEmpty && allDigits e.digits)

/-- Rendering of the exponent part. -/
def ExpPart.render (e : ExpPart) : Str :=
  (match e.mark with | .lower => ['e'] | .upper => ['E']) ++
  (match e.sign with | none => [] | some false => ['+'] | some true => ['-']) ++
  e.digits

/-- Rendering of a number literal. -/
def NumLit.render (n : NumLit) : Str :=
  (if n.neg then ['-'] else []) ++ n.ip ++
  (match n.frac with | none => [] | some f => '.' :: f) ++
  (match n.ex with | none => [] | some e => e.render)

mutual
/-- JSON values. Object fields are kept in insertion order. -/
inductive Json where
  | null
  | bool (b : Bool)
  | num (n : NumLit)
  | str (s : Str)
  | arr (xs : JsonList)
  | obj (fs : JsonFields)
/-- Lists of JSON values. -/
inductive JsonList where
  | nil
  | cons (hd : Json) (tl : JsonList)
/-- Field lists of JSON objects. -/
inductive JsonFields where
  | fnil
  | fcons (k : Str) (v : Json) (tl : JsonFields)
end
deriving instance DecidableEq for Json
deriving instance DecidableEq for JsonList
deriving instance DecidableEq for JsonFields

/-- `JSON.stringify` escaping of one string character. -/
def escChar (c : Char) : Str :=
  if c = '"' then ['\\', '"']
  else if c = '\\' then ['\\', '\\']
  else if c = Char.ofNat 8 then ['\\', 'b']
  else if c = Char.ofNat 9 then ['\\', 't']
  else if c = Char.ofNat 10 then ['\\', 'n']
  else if c = Char.ofNat 12 then ['\\', 'f']
  else if c = Char.ofNat 13 then ['\\', 'r']
  else if c.toNat < 32 then
    ['\\', 'u', '0', '0', hexDigitL (c.toNat / 16), hexDigitL (c.toNat % 16)]
  else [c]

/-- `JSON.stringify` escaping of a string body. -/
def escStr : Str → Str
  | [] => []
  | c :: r => escChar c ++ escStr r

mutual
/-- Model of `JSON.stringify` (no space argument, as in the source). -/
def stringify : Json → Str
  | .null => strL "null"
  | .bool true => strL "true"
  | .bool false => strL "false"
  | .num n => n.render
  | .str s => '"' :: (escStr s ++ ['"'])
  | .arr .nil => ['[', ']']
  | .arr (.cons j tl) => '[' :: (stringify j ++ stringifyListRest tl ++ [']'])
  | .obj .fnil => ['{', '}']
  | .obj (.fcons k v tl) =>
    '{' :: (strPair k v ++ stringifyFieldsRest tl ++ ['}'])
/-- One `"key":value` pair. -/
def strPair (k : Str) (v : Json) : Str :=
  '"' :: (escStr k ++ '"' :: ':' :: stringify v)
/-- Remaining array elements, each preceded by a comma. -/
def stringifyListRest : JsonList → Str
  | .nil => []
  | .cons j tl => ',' :: (stringify j ++ stringifyListRest tl)
/-- Remaining object fields, each preceded by a comma. -/
def stringifyFieldsRest : JsonFields → Str
  | .fnil => []
  | .fcons k v tl => ',' :: (strPair k v ++ stringifyFieldsRest tl)
end

/-- JSON whitespace. -/
def isWs (c : Char) : Bool :=
  c.toNat = 32 || c.toNat = 9 || c.toNat = 10 || c.toNat = 13

/-- Skip leading JSON whitespace. -/
def skipWs : Str → Str
  | [] => []
  | c :: r => if isWs c then skipWs r else c :: r

/-- Meaning of a simple escape character. -/
def escSimple (e : Char) : Option Char :=
  if e = '"' then some '"'
  else if e = '\\' then some '\\'
  else if e = '/' then some '/'
  else if e = 'b' then some (Char.ofNat 8)
  else if e = 'f' then some (Char.ofNat 12)
  else if e = 'n' then some (Char.ofNat 10)
  else if e = 'r' then some (Char.ofNat 13)
  else if e = 't' then some (Char.ofNat 9)
  else none

/-- Parse the body of a JSON string after the opening quote, returning
the decoded characters and the input after the closing quote. Raw
control characters are rejected, as by `JSON.parse`; `\u` escapes of
surrogate code points are not representable and rejected. -/
def parseStrRest : Str → Option (Str × Str)
  | [] => none
  | c :: r =>
    if c = '"' then some ([], r)
    else if c = '\\' then
      match r with
      | [] => none
      | e :: r2 =>
        if e = 'u' then
          match r2 with
          | h1 :: h2 :: h3 :: h4 :: r3 =>
            match hexVal h1, hexVal h2, hexVal h3, hexVal h4 with
            | some a, some b, some c2, some d =>
              let n := ((a * 16 + b) * 16 + c2) * 16 + d
              if 0xD800 ≤ n && n < 0xE000 then none
              else (parseStrRest r3).map (fun p => (Char.ofNat n :: p.1, p.2))
            | _, _, _, _ => none
          | _ => none
        else
          match escSimple e with
          | some ec => (parseStrRest r2).map (fun p => (ec :: p.1, p.2))
          | none => none
    else if c.toNat < 32 then none
    else (parseStrRest r).map (fun p => (c :: p.1, p.2))

/-- Take the maximal run of leading digits. -/
def takeDigits : Str → Str × Str
  | [] => ([], [])
  | c :: r =>
    if isDigitC c then
      match takeDigits r with
      | (d, rest) => (c :: d, rest)
    else ([], c :: r)

/-- Parse the integer part of a number (leading zeros rejected). -/
def parseIntPart : Str → Option (Str × Str)
  | [] => none
  | c :: r =>
    if c = '0' then
      match r with
      | c2 :: _ => if isDigitC c2 then none else some (['0'], r)
      | [] => some (['0'], [])
    else if isDigitC c then
      match takeDigits r with
      | (d, rest) => some (c :: d, rest)
    else none

/-- Parse an optional fraction part. -/
def parseFracPart : Str → Option (Option Str × Str)
  | [] => some (none, [])
  | c :: r =>
    if c = '.' then
      match takeDigits r with
      | ([], _) => none
      | (d, rest) => some (some d, rest)
    else some (none, c :: r)

/-- Parse an optional exponent part. -/
def parseExpPart : Str → Option (Option ExpPart × Str)
  | [] => some (none, [])
  | c :: r =>
    if c = 'e' ∨ c = 'E' then
      let mark := if c = 'e' then ExpMark.lower else ExpMark.upper
      match r with
      | [] => none
      | s :: r2 =>
        if s = '+' then
          match takeDigits r2 with
          | ([], _) => none
          | (d, rest) => some (some ⟨mark, some false, d⟩, rest)
        else if s = '-' then
          match takeDigits r2 with
          | ([], _) => none
          | (d, rest) => some (some ⟨mark, some true, d⟩, rest)
        else
          match takeDigits (s :: r2) with
          | ([], _) => none
          | (d, rest) => some (some ⟨mark, none, d⟩, rest)
    else some (none, c :: r)

/-- Split off a leading minus sign. -/
def numSign : Str → Bool × Str
  | c :: r => if c = '-' then (true, r) else (false, c :: r)
  | [] => (false, [])

/-- Parse a complete number literal. -/
def parseNumLit (xs : Str) : Option (NumLit × Str) :=
  match numSign xs with
  | (neg, r1) =>
    match parseIntPart r1 with
    | none => none
    | some (ip, r2) =>
      match parseFracPart r2 with
      | none => none
      | some (fr, r3) =>
        match parseExpPart r3 with
        | none => none
        | some (ex, r4) => some (⟨neg, ip, fr, ex⟩, r4)

/-- Insert a field JavaScript-style: an existing key keeps its position
and gets the new value, a new key is appended. -/
def fInsert : JsonFields → Str → Json → JsonFields
  | .fnil, k, v => .fcons k v .fnil
  | .fcons k0 v0 tl, k, v =>
    if k0 = k then .fcons k0 v tl else .fcons k0 v0 (fInsert tl k v)

mutual
/-- Fuelled model of `JSON.parse` on one value. -/
def parseVal : Nat → Str → Option (Json × Str)
  | 0, _ => none
  | fuel + 1, xs =>
    match skipWs xs with
    | [] => none
    | c :: r =>
      if c = 'n' then
        match r with
        | 'u' :: 'l' :: 'l' :: r2 => some (.null, r2)
        | _ => none
      else if c = 't' then
        match r with
        | 'r' :: 'u' :: 'e' :: r2 => some (.bool true, r2)
        | _ => none
      else if c = 'f' then
        match r with
        | 'a' :: 'l' :: 's' :: 'e' :: r2 => some (.bool false, r2)
        | _ => none
      else if c = '"' then
        (parseStrRest r).map (fun p => (Json.str p.1, p.2))
      else if c = '[' then
        if (skipWs r).headD ' ' = ']' then some (.arr .nil, (skipWs r).tail)
        else (parseElems fuel r).map (fun p => (Json.arr p.1, p.2))
      else if c = '{' then
        if (skipWs r).headD ' ' = '}' then some (.obj .fnil, (skipWs r).tail)
        else (parseMembers fuel .fnil r).map (fun p => (Json.obj p.1, p.2))
      else if c = '-' ∨ isDigitC c then
        (parseNumLit (c :: r)).map (fun p => (Json.num p.1, p.2))
      else none
/-- Fuelled parser for nonempty array element lists. -/
def parseElems : Nat → Str → Option (JsonList × Str)
  | 0, _ => none
  | fuel + 1, xs =>
    match parseVal fuel xs with
    | none => none
    | some (j, r) =>
      match skipWs r with
      | c :: r2 =>
        if c = ',' then
          (parseElems fuel r2).map (fun p => (JsonList.cons j p.1, p.2))
        else if c = ']' then some (.cons j .nil, r2)
        else none
      | [] => none
/-- Fuelled parser for nonempty object member lists, accumulating
fields JavaScript-style. -/
def parseMembers : Nat → JsonFields → Str → Option (JsonFields × Str)
  | 0, _, _ => none
  | fuel + 1, acc, xs =>
    match skipWs xs with
    | c :: r =>
      if c = '"' then
        match parseStrRest r with
        | none => none
        | some (k, r2) =>
          match skipWs r2 with
          | c2 :: r3 =>
            if c2 = ':' then
              match parseVal fuel r3 with
              | none => none
              | some (v, r4) =>
                match skipWs r4 with
                | c3 :: r5 =>
                  if c3 = ',' then parseMembers fuel (fInsert acc k v) r5
                  else if c3 = '}' then some (fInsert acc k v, r5)
                  else none
                | [] => none
            else none
          | [] => none
      else none
    | [] => none
end

/-- Model of `JSON.parse`; `none` models a thrown `SyntaxError`. -/
def jsonParse (xs : Str) : Option Json :=
  match parseVal (2 * xs.length + 2) xs with
  | some (j, r) => if skipWs r = [] then some j else none
  | none => none

/-! ## Round trip of `jsonParse` after `stringify` -/

mutual
/-- Size of a JSON value. -/
def sizeJ : Json → Nat
  | .null => 1
  | .bool _ => 1
  | .num _ => 1
  | .str _ => 1
  | .arr xs => 1 + sizeL xs
  | .obj fs => 1 + sizeF fs
/-- Size of a JSON list. -/
def sizeL : JsonList → Nat
  | .nil => 1
  | .cons j tl => 1 + sizeJ j + sizeL tl
/-- Size of a JSON field list. -/
def sizeF : JsonFields → Nat
  | .fnil => 1
  | .fcons _ v tl => 1 + sizeJ v + sizeF tl
end

theorem sizeJ_pos (j : Json) : 1 ≤ sizeJ j := by
  cases j <;> simp [sizeJ]

/-- Does the field list contain the key? -/
def fHasKey : JsonFields → Str → Bool
  | .fnil, _ => false
  | .fcons k0 _ tl, k => k0 = k || fHasKey tl k

/-- Field keys are pairwise distinct. -/
def fKeysNodup : JsonFields → Bool
  | .fnil => true
  | .fcons k _ tl => !(fHasKey tl k) && fKeysNodup tl

/-- All keys of the second field list are absent from the first. -/
def fFreshB : JsonFields → JsonFields → Bool
  | _, .fnil => true
  | acc, .fcons k _ tl => !(fHasKey acc k) && fFreshB acc tl

/-- Concatenation of field lists. -/
def fAppend : JsonFields → JsonFields → JsonFields
  | .fnil, gs => gs
  | .fcons k v tl, gs => .fcons k v (fAppend tl gs)

mutual
/-- Well-formed JSON values: number literals respect the grammar and
object keys are pairwise distinct (as in anything `JSON.parse` can
produce). -/
def JsonWf : Json → Bool
  | .null => true
  | .bool _ => true
  | .num n => n.wf
  | .str _ => true
  | .arr xs => JsonListWf xs
  | .obj fs => fKeysNodup fs && JsonFieldsWf fs
/-- Well-formedness of list elements. -/
def JsonListWf : JsonList → Bool
  | .nil => true
  | .cons j tl => JsonWf j && JsonListWf tl
/-- Well-formedness of field values. -/
def JsonFieldsWf : JsonFields → Bool
  | .fnil => true
  | .fcons _ v tl => JsonWf v && JsonFieldsWf tl
end

/-- Structural induction for `JsonFields` alone (the mutual recursor is
inconvenient; field values are not descended into). -/
def jsonFieldsInd {motive : JsonFields → Prop} (h1 : motive .fnil)
    (h2 : ∀ k v tl, motive tl → motive (.fcons k v tl)) :
    ∀ fs, motive fs
  | .fnil => h1
  | .fcons k v tl => h2 k v tl (jsonFieldsInd h1 h2 tl)

theorem fHasKey_fInsert (acc : JsonFields) (k k2 : Str) (v : Json) :
    fHasKey (fInsert acc k v) k2 = (fHasKey acc k2 || k = k2) := by
  induction acc using jsonFieldsInd with
  | h1 => simp [fInsert, fHasKey]
  | h2 k0 v0 tl ih =>
    by_cases h : k0 = k
    · subst h
      simp [fInsert, fHasKey]
      by_cases h2 : k0 = k2 <;> simp [h2]
    · simp only [fInsert, if_neg h, fHasKey, ih]
      by_cases h2 : k0 = k2 <;> simp [h2, Bool.or_assoc]

theorem fInsert_fresh (acc : JsonFields) (k : Str) (v : Json)
    (h : fHasKey acc k = false) :
    fInsert acc k v = fAppend acc (.fcons k v .fnil) := by
  induction acc using jsonFieldsInd with
  | h1 => rfl
  | h2 k0 v0 tl ih =>
    simp only [fHasKey, Bool.or_eq_false_iff] at h
    have hne : ¬ (k0 = k) := by
      intro he
      rw [he] at h
      simp at h
    simp only [fInsert, if_neg hne, fAppend]
    rw [ih h.2]

theorem fAppend_fcons (acc : JsonFields) (k : Str) (v : Json)
    (gs : JsonFields) :
    fAppend (fAppend acc (.fcons k v .fnil)) gs =
      fAppend acc (.fcons k v gs) := by
  induction acc using jsonFieldsInd with
  | h1 => rfl
  | h2 k0 v0 tl ih => simp only [fAppend]; rw [ih]

theorem digit_facts (c : Char) (h : isDigitC c = true) :
    isWs c = false ∧ ¬ c = ']' ∧ ¬ c = '}' ∧ ¬ c = ',' ∧ ¬ c = '-' ∧
      ¬ c = '.' ∧ ¬ c = 'e' ∧ ¬ c = 'E' := by
  simp only [isDigitC, Bool.and_eq_true, decide_eq_true_eq] at h
  refine ⟨?_, ?_, ?_, ?_, ?_, ?_, ?_, ?_⟩
  · simp only [isWs, Bool.or_eq_false_iff, decide_eq_false_iff_not]
    omega
  all_goals
    intro he
    rw [he] at h
    simp at h

theorem skipWs_not (c : Char) (r : Str) (h : isWs c = false) :
    skipWs (c :: r) = c :: r := by
  simp [skipWs, h]

theorem parseStrRest_quote (r : Str) : parseStrRest ('"' :: r) = some ([], r) := by
  unfold parseStrRest
  rfl

theorem parseStrRest_plain (c : Char) (r : Str) (h1 : ¬ c = '"')
    (h2 : ¬ c = '\\') (h3 : ¬ c.toNat < 32) :
    parseStrRest (c :: r) = (parseStrRest r).map (fun p => (c :: p.1, p.2)) := by
  rw [parseStrRest.eq_def]
  simp only [if_neg h1, if_neg h2, if_neg h3]

theorem parseStrRest_escSimple (e ec : Char) (r : Str)
    (he : escSimple e = some ec) (hu : ¬ e = 'u') :
    parseStrRest ('\\' :: e :: r) =
      (parseStrRest r).map (fun p => (ec :: p.1, p.2)) := by
  rw [parseStrRest.eq_def]
  simp [if_neg hu, he]

theorem parseStrRest_u (h1 h2 h3 h4 : Char) (a b c2 d : Nat) (r3 : Str)
    (ha : hexVal h1 = some a) (hb : hexVal h2 = some b)
    (hc : hexVal h3 = some c2) (hd : hexVal h4 = some d)
    (hsur : ¬ (0xD800 ≤ ((a * 16 + b) * 16 + c2) * 16 + d ∧
      ((a * 16 + b) * 16 + c2) * 16 + d < 0xE000)) :
    parseStrRest ('\\' :: 'u' :: h1 :: h2 :: h3 :: h4 :: r3) =
      (parseStrRest r3).map
        (fun p => (Char.ofNat (((a * 16 + b) * 16 + c2) * 16 + d) :: p.1, p.2)) := by
  rw [parseStrRest.eq_def]
  have hfalse : (decide (0xD800 ≤ ((a * 16 + b) * 16 + c2) * 16 + d) &&
      decide (((a * 16 + b) * 16 + c2) * 16 + d < 0xE000)) = false := by
    by_cases hx : 0xD800 ≤ ((a * 16 + b) * 16 + c2) * 16 + d
    · have hy : ¬ (((a * 16 + b) * 16 + c2) * 16 + d < 0xE000) :=
        fun hy => hsur ⟨hx, hy⟩
      simp [hy]
    · simp [hx]
  simp [ha, hb, hc, hd, hfalse]

/-- Parsing back an escaped string body recovers it exactly. -/
theorem parseStrRest_esc (s : Str) (r : Str) :
    parseStrRest (escStr s ++ '"' :: r) = some (s, r) := by
  induction s with
  | nil => exact parseStrRest_quote r
  | cons c s' ih =>
    have hshape : escStr (c :: s') ++ '"' :: r =
        escChar c ++ (escStr s' ++ '"' :: r) := by
      simp [escStr, List.append_assoc]
    rw [hshape]
    by_cases hq : c = '"'
    · subst hq
      rw [show escChar '"' = ['\\', '"'] from rfl]
      rw [show (['\\', '"'] : Str) ++ (escStr s' ++ '"' :: r) =
        '\\' :: '"' :: (escStr s' ++ '"' :: r) from rfl]
      rw [parseStrRest_escSimple '"' '"' _ rfl (by decide), ih]
      rfl
    · by_cases hbs : c = '\\'
      · subst hbs
        rw [show escChar '\\' = ['\\', '\\'] from rfl]
        rw [show (['\\', '\\'] : Str) ++ (escStr s' ++ '"' :: r) =
          '\\' :: '\\' :: (escStr s' ++ '"' :: r) from rfl]
        rw [parseStrRest_escSimple '\\' '\\' _ rfl (by decide), ih]
        rfl
      · by_cases h8 : c = Char.ofNat 8
        · subst h8
          rw [show escChar (Char.ofNat 8) = ['\\', 'b'] from rfl]
          rw [show (['\\', 'b'] : Str) ++ (escStr s' ++ '"' :: r) =
            '\\' :: 'b' :: (escStr s' ++ '"' :: r) from rfl]
          rw [parseStrRest_escSimple 'b' (Char.ofNat 8) _ rfl (by decide), ih]
          rfl
        · by_cases h9 : c = Char.ofNat 9
          · subst h9
            rw [show escChar (Char.ofNat 9) = ['\\', 't'] from rfl]
            rw [show (['\\', 't'] : Str) ++ (escStr s' ++ '"' :: r) =
              '\\' :: 't' :: (escStr s' ++ '"' :: r) from rfl]
            rw [parseStrRest_escSimple 't' (Char.ofNat 9) _ rfl (by decide), ih]
            rfl
          · by_cases h10 : c = Char.ofNat 10
            · subst h10
              rw [show escChar (Char.ofNat 10) = ['\\', 'n'] from rfl]
              rw [show (['\\', 'n'] : Str) ++ (escStr s' ++ '"' :: r) =
                '\\' :: 'n' :: (escStr s' ++ '"' :: r) from rfl]
              rw [parseStrRest_escSimple 'n' (Char.ofNat 10) _ rfl (by decide),
                ih]
              rfl
            · by_cases h12 : c = Char.ofNat 12
              · subst h12
                rw [show escChar (Char.ofNat 12) = ['\\', 'f'] from rfl]
                rw [show (['\\', 'f'] : Str) ++ (escStr s' ++ '"' :: r) =
                  '\\' :: 'f' :: (escStr s' ++ '"' :: r) from rfl]
                rw [parseStrRest_escSimple 'f' (Char.ofNat 12) _ rfl
                  (by decide), ih]
                rfl
              · by_cases h13 : c = Char.ofNat 13
                · subst h13
                  rw [show escChar (Char.ofNat 13) = ['\\', 'r'] from rfl]
                  rw [show (['\\', 'r'] : Str) ++ (escStr s' ++ '"' :: r) =
                    '\\' :: 'r' :: (escStr s' ++ '"' :: r) from rfl]
                  rw [parseStrRest_escSimple 'r' (Char.ofNat 13) _ rfl
                    (by decide), ih]
                  rfl
                · by_cases hctl : c.toNat < 32
                  · have hesc : escChar c = ['\\', 'u', '0', '0',
                        hexDigitL (c.toNat / 16), hexDigitL (c.toNat % 16)] := by
                      unfold escChar
                      rw [if_neg hq, if_neg hbs, if_neg h8, if_neg h9,
                        if_neg h10, if_neg h12, if_neg h13, if_pos hctl]
                    rw [hesc]
                    rw [show (['\\', 'u', '0', '0', hexDigitL (c.toNat / 16),
                      hexDigitL (c.toNat % 16)] : Str) ++
                        (escStr s' ++ '"' :: r) =
                      '\\' :: 'u' :: '0' :: '0' :: hexDigitL (c.toNat / 16) ::
                        hexDigitL (c.toNat % 16) :: (escStr s' ++ '"' :: r)
                      from rfl]
                    rw [parseStrRest_u '0' '0' _ _ 0 0 (c.toNat / 16)
                      (c.toNat % 16) _ (by decide) (by decide)
                      (hexVal_hexDigitL _ (by omega))
                      (hexVal_hexDigitL _ (by omega)) (by omega), ih]
                    have hn : ((0 * 16 + 0) * 16 + c.toNat / 16) * 16 +
                        c.toNat % 16 = c.toNat := by omega
                    rw [hn, Char.ofNat_toNat]
                    rfl
                  · have hesc : escChar c = [c] := by
                      unfold escChar
                      rw [if_neg hq, if_neg hbs, if_neg h8, if_neg h9,
                        if_neg h10, if_neg h12, if_neg h13, if_neg hctl]
                    rw [hesc]
                    rw [show ([c] : Str) ++ (escStr s' ++ '"' :: r) =
                      c :: (escStr s' ++ '"' :: r) from rfl]
                    rw [parseStrRest_plain c _ hq hbs hctl, ih]
                    rfl

/-- What may legally follow a serialized number inside a JSON document. -/
def NumBoundary : Str → Prop
  | [] => True
  | c :: _ => c = ',' ∨ c = ']' ∨ c = '}'

/-- The head is not a digit. -/
def NoDigitHead : Str → Prop
  | [] => True
  | c :: _ => isDigitC c = false

/-- The head can not extend a fraction-free number. -/
def NoFracHead : Str → Prop
  | [] => True
  | c :: _ => isDigitC c = false ∧ ¬ c = '.'

/-- The head can not extend an exponent-free number. -/
def NoExpHead : Str → Prop
  | [] => True
  | c :: _ => isDigitC c = false ∧ ¬ c = '.' ∧ ¬ c = 'e' ∧ ¬ c = 'E'

theorem numBoundary_noExpHead (r : Str) (hb : NumBoundary r) : NoExpHead r := by
  cases r with
  | nil => trivial
  | cons c rest =>
    rcases hb with he | he | he <;> subst he <;> exact ⟨by decide, by decide,
      by decide, by decide⟩

/-- Rendering of the optional fraction part. -/
def fracRender : Option Str → Str
  | none => []
  | some f => '.' :: f

/-- Rendering of the optional exponent part. -/
def expRender : Option ExpPart → Str
  | none => []
  | some e => e.render

theorem numLit_render_eq (n : NumLit) :
    n.render = (if n.neg then ['-'] else []) ++ n.ip ++ fracRender n.frac ++
      expRender n.ex := by
  unfold NumLit.render fracRender expRender
  cases n.frac <;> cases n.ex <;> rfl

theorem takeDigits_append (d : Str) (r : Str) (hd : allDigits d = true)
    (hr : NoDigitHead r) : takeDigits (d ++ r) = (d, r) := by
  induction d with
  | nil =>
    cases r with
    | nil => rfl
    | cons c rest =>
      simp only [NoDigitHead] at hr
      rw [List.nil_append, takeDigits.eq_def]
      simp [hr]
  | cons c d' ih =>
    simp only [allDigits, List.all_cons, Bool.and_eq_true] at hd
    have ih' := ih hd.2
    rw [List.cons_append, takeDigits.eq_def]
    simp only [hd.1, if_true, ih']

theorem parseIntPart_append (ip : Str) (r : Str)
    (h1 : allDigits ip = true) (h2 : ip ≠ [])
    (h3 : ip.length = 1 ∨ ip.headD '0' ≠ '0') (hr : NoDigitHead r) :
    parseIntPart (ip ++ r) = some (ip, r) := by
  cases ip with
  | nil => exact absurd rfl h2
  | cons c ds =>
    simp only [allDigits, List.all_cons, Bool.and_eq_true] at h1
    by_cases hz : c = '0'
    · subst hz
      have hds : ds = [] := by
        rcases h3 with h | h
        · simpa using h
        · simp at h
      subst hds
      cases r with
      | nil => rfl
      | cons c2 rest =>
        simp only [NoDigitHead] at hr
        rw [List.cons_append, List.nil_append, parseIntPart.eq_def]
        simp [hr]
    · rw [List.cons_append, parseIntPart.eq_def]
      have htd := takeDigits_append ds r h1.2 hr
      simp [hz, h1.1, htd]

theorem noFracHead_noDigit (tail : Str) (h : NoFracHead tail) :
    NoDigitHead tail := by
  cases tail with
  | nil => trivial
  | cons c r => exact h.1

theorem noExpHead_noFrac (tail : Str) (h : NoExpHead tail) :
    NoFracHead tail := by
  cases tail with
  | nil => trivial
  | cons c r => exact ⟨h.1, h.2.1⟩

theorem parseFracPart_render (fr : Option Str) (tail : Str)
    (hfr : match fr with
           | none => True
           | some f => allDigits f = true ∧ f ≠ [])
    (htail : NoFracHead tail) :
    parseFracPart (fracRender fr ++ tail) = some (fr, tail) := by
  cases fr with
  | none =>
    rw [show fracRender none ++ tail = tail from rfl]
    cases tail with
    | nil => rfl
    | cons c rest =>
      obtain ⟨hd, hdot⟩ := htail
      rw [parseFracPart.eq_def]
      simp [hdot]
  | some f =>
    obtain ⟨hall, hne⟩ := hfr
    rw [show fracRender (some f) ++ tail = '.' :: (f ++ tail) from rfl]
    rw [parseFracPart.eq_def]
    have htd := takeDigits_append f tail hall (noFracHead_noDigit tail htail)
    cases f with
    | nil => exact absurd rfl hne
    | cons a f' =>
      rw [List.cons_append] at htd
      simp [htd]

theorem parseExpPart_render (ex : Option ExpPart) (r : Str)
    (hex : match ex with
           | none => True
           | some e => allDigits e.digits = true ∧ e.digits ≠ [])
    (hb : NoExpHead r) :
    parseExpPart (expRender ex ++ r) = some (ex, r) := by
  cases ex with
  | none =>
    rw [show expRender none ++ r = r from rfl]
    cases r with
    | nil => rfl
    | cons c rest =>
      obtain ⟨hd, hdot, he, hE⟩ := hb
      rw [parseExpPart.eq_def]
      have : ¬ (c = 'e' ∨ c = 'E') := by
        intro hor
        rcases hor with h | h
        · exact he h
        · exact hE h
      simp [this]
  | some e =>
    obtain ⟨hall, hne⟩ := hex
    obtain ⟨mark, sign, digits⟩ := e
    have hnd : NoDigitHead r := noFracHead_noDigit r (noExpHead_noFrac r hb)
    cases digits with
    | nil => exact absurd rfl hne
    | cons d ds =>
    have hdig : isDigitC d = true := by
      simp only [allDigits, List.all_cons, Bool.and_eq_true] at hall
      exact hall.1
    have hdfacts := digit_facts d hdig
    have htd : takeDigits ((d :: ds) ++ r) = (d :: ds, r) :=
      takeDigits_append (d :: ds) r hall hnd
    rw [List.cons_append] at htd
    cases mark with
    | lower =>
      cases sign with
      | none =>
        rw [show expRender (some ⟨ExpMark.lower, none, d :: ds⟩) ++ r =
          'e' :: ((d :: ds) ++ r) from by simp [expRender, ExpPart.render]]
        rw [parseExpPart.eq_def]
        have h1 : ¬ d = '+' := by
          intro he; rw [he] at hdig; simp [isDigitC] at hdig
        have h2 : ¬ d = '-' := hdfacts.2.2.2.2.1
        simp [h1, h2, htd]
      | some sgn =>
        cases sgn with
        | false =>
          rw [show expRender (some ⟨ExpMark.lower, some false, d :: ds⟩) ++ r =
            'e' :: '+' :: ((d :: ds) ++ r) from by
              simp [expRender, ExpPart.render]]
          rw [parseExpPart.eq_def]
          simp [htd]
        | true =>
          rw [show expRender (some ⟨ExpMark.lower, some true, d :: ds⟩) ++ r =
            'e' :: '-' :: ((d :: ds) ++ r) from by
              simp [expRender, ExpPart.render]]
          rw [parseExpPart.eq_def]
          simp [htd]
    | upper =>
      cases sign with
      | none =>
        rw [show expRender (some ⟨ExpMark.upper, none, d :: ds⟩) ++ r =
          'E' :: ((d :: ds) ++ r) from by simp [expRender, ExpPart.render]]
        rw [parseExpPart.eq_def]
        have h1 : ¬ d = '+' := by
          intro he; rw [he] at hdig; simp [isDigitC] at hdig
        have h2 : ¬ d = '-' := hdfacts.2.2.2.2.1
        simp [h1, h2, htd]
      | some sgn =>
        cases sgn with
        | false =>
          rw [show expRender (some ⟨ExpMark.upper, some false, d :: ds⟩) ++ r =
            'E' :: '+' :: ((d :: ds) ++ r) from by
              simp [expRender, ExpPart.render]]
          rw [parseExpPart.eq_def]
          simp [htd]
        | true =>
          rw [show expRender (some ⟨ExpMark.upper, some true, d :: ds⟩) ++ r =
            'E' :: '-' :: ((d :: ds) ++ r) from by
              simp [expRender, ExpPart.render]]
          rw [parseExpPart.eq_def]
          simp [htd]

theorem numLit_wf_parts (n : NumLit) (hwf : n.wf = true) :
    allDigits n.ip = true ∧ n.ip ≠ [] ∧
    (n.ip.length = 1 ∨ n.ip.headD '0' ≠ '0') ∧
    (match n.frac with
     | none => True
     | some f => allDigits f = true ∧ f ≠ []) ∧
    (match n.ex with
     | none => True
     | some e => allDigits e.digits = true ∧ e.digits ≠ []) := by
  unfold NumLit.wf at hwf
  simp only [Bool.and_eq_true] at hwf
  obtain ⟨⟨⟨⟨h1, h2⟩, h3⟩, h4⟩, h5⟩ := hwf
  refine ⟨h1, by simpa using h2, ?_, ?_, ?_⟩
  · simpa [Bool.or_eq_true, decide_eq_true_eq, bne_iff_ne] using h3
  · revert h4
    cases n.frac with
    | none => intro h4; trivial
    | some f =>
      intro h4
      simp only [Bool.and_eq_true] at h4
      exact ⟨h4.2, by simpa using h4.1⟩
  · revert h5
    cases n.ex with
    | none => intro h5; trivial
    | some e =>
      intro h5
      simp only [Bool.and_eq_true] at h5
      exact ⟨h5.2, by simpa using h5.1⟩

theorem parseNumLit_render (n : NumLit) (hwf : n.wf = true) (r : Str)
    (hb : NumBoundary r) : parseNumLit (n.render ++ r) = some (n, r) := by
  obtain ⟨hall, hne, hlz, hfr, hex⟩ := numLit_wf_parts n hwf
  have hNoExp : NoExpHead r := numBoundary_noExpHead r hb
  have hNoFrac : NoFracHead (expRender n.ex ++ r) := by
    cases hc : n.ex with
    | none => simpa [hc, expRender] using noExpHead_noFrac r hNoExp
    | some e =>
      obtain ⟨mark, sign, digits⟩ := e
      cases mark with
      | lower =>
        simp only [expRender, ExpPart.render, List.cons_append,
          List.append_assoc]
        exact ⟨by decide, by decide⟩
      | upper =>
        simp only [expRender, ExpPart.render, List.cons_append,
          List.append_assoc]
        exact ⟨by decide, by decide⟩
  have hNoDigit : NoDigitHead (fracRender n.frac ++ (expRender n.ex ++ r)) := by
    cases n.frac with
    | none => simpa [fracRender] using noFracHead_noDigit _ hNoFrac
    | some f =>
      simp only [fracRender, List.cons_append]
      exact (by decide : isDigitC '.' = false)
  have hfr' := parseFracPart_render n.frac (expRender n.ex ++ r) hfr hNoFrac
  have hex' := parseExpPart_render n.ex r hex hNoExp
  have hint := parseIntPart_append n.ip (fracRender n.frac ++ (expRender n.ex ++ r))
    hall hne hlz hNoDigit
  obtain ⟨neg, ip, fr, ex⟩ := n
  rw [numLit_render_eq]
  cases neg with
  | true =>
    have hshape : ((if true = true then ['-'] else []) ++ ip ++ fracRender fr ++
        expRender ex) ++ r =
        '-' :: (ip ++ (fracRender fr ++ (expRender ex ++ r))) := by
      simp [List.append_assoc]
    rw [hshape]
    have hsign : numSign ('-' :: (ip ++ (fracRender fr ++ (expRender ex ++ r))))
        = (true, ip ++ (fracRender fr ++ (expRender ex ++ r))) := by
      simp [numSign]
    rw [parseNumLit.eq_def, hsign]
    simp only [hint, hfr', hex']
  | false =>
    have hshape : ((if false = true then ['-'] else []) ++ ip ++ fracRender fr ++
        expRender ex) ++ r =
        ip ++ (fracRender fr ++ (expRender ex ++ r)) := by
      simp [List.append_assoc]
    rw [hshape]
    have hsign : numSign (ip ++ (fracRender fr ++ (expRender ex ++ r)))
        = (false, ip ++ (fracRender fr ++ (expRender ex ++ r))) := by
      cases hip : ip with
      | nil => exact absurd hip hne
      | cons c ds =>
        have hdig : isDigitC c = true := by
          rw [hip] at hall
          simp only [allDigits, List.all_cons, Bool.and_eq_true] at hall
          exact hall.1
        have hnotminus : ¬ c = '-' := (digit_facts c hdig).2.2.2.2.1
        simp [numSign, hnotminus]
    rw [parseNumLit.eq_def, hsign]
    simp only [hint, hfr', hex']

theorem stringify_null : stringify Json.null = ['n', 'u', 'l', 'l'] := by
  rw [show stringify Json.null = strL "null" from by simp [stringify]]
  decide

theorem stringify_true : stringify (Json.bool true) = ['t', 'r', 'u', 'e'] := by
  rw [show stringify (Json.bool true) = strL "true" from by simp [stringify]]
  decide

theorem stringify_false :
    stringify (Json.bool false) = ['f', 'a', 'l', 's', 'e'] := by
  rw [show stringify (Json.bool false) = strL "false" from by simp [stringify]]
  decide

theorem stringify_num (n : NumLit) : stringify (Json.num n) = n.render := by
  simp [stringify]

theorem stringify_str (s : Str) :
    stringify (Json.str s) = '"' :: (escStr s ++ ['"']) := by
  simp [stringify]

theorem stringify_arr_nil : stringify (Json.arr .nil) = ['[', ']'] := by
  simp [stringify]

theorem stringify_arr_cons (x : Json) (tl : JsonList) :
    stringify (Json.arr (.cons x tl)) =
      '[' :: (stringify x ++ stringifyListRest tl ++ [']']) := by
  simp [stringify]

theorem stringify_obj_fnil : stringify (Json.obj .fnil) = ['{', '}'] := by
  simp [stringify]

theorem stringify_obj_fcons (k : Str) (v : Json) (tl : JsonFields) :
    stringify (Json.obj (.fcons k v tl)) =
      '{' :: (strPair k v ++ stringifyFieldsRest tl ++ ['}']) := by
  simp [stringify]

theorem strPair_eq (k : Str) (v : Json) :
    strPair k v = '"' :: (escStr k ++ '"' :: ':' :: stringify v) := by
  simp [strPair]

theorem stringifyListRest_cons (j : Json) (tl : JsonList) :
    stringifyListRest (.cons j tl) =
      ',' :: (stringify j ++ stringifyListRest tl) := by
  simp [stringifyListRest]

theorem stringifyFieldsRest_fcons (k : Str) (v : Json) (tl : JsonFields) :
    stringifyFieldsRest (.fcons k v tl) =
      ',' :: (strPair k v ++ stringifyFieldsRest tl) := by
  simp [stringifyFieldsRest]

theorem digit_facts2 (c : Char) (h : isDigitC c = true) :
    ¬ c = 'n' ∧ ¬ c = 't' ∧ ¬ c = 'f' ∧ ¬ c = '"' ∧ ¬ c = '[' ∧ ¬ c = '{' := by
  refine ⟨?_, ?_, ?_, ?_, ?_, ?_⟩
  all_goals
    intro he
    rw [he] at h
    simp [isDigitC] at h

/-- Heads that a serialized value can start with: never whitespace, never
a closing bracket, never a separator. -/
theorem stringify_head (j : Json) (hwf : JsonWf j = true) :
    ∃ c cs, stringify j = c :: cs ∧ isWs c = false ∧ ¬ c = ']' ∧ ¬ c = '}' ∧
      ¬ c = ',' := by
  cases j with
  | null => exact ⟨'n', _, stringify_null, by decide, by decide, by decide,
      by decide⟩
  | bool b =>
    cases b with
    | true => exact ⟨'t', _, stringify_true, by decide, by decide, by decide,
        by decide⟩
    | false => exact ⟨'f', _, stringify_false, by decide, by decide, by decide,
        by decide⟩
  | num n =>
    have hnwf : n.wf = true := by simpa [JsonWf] using hwf
    obtain ⟨hall, hne, hlz, hfr, hex⟩ := numLit_wf_parts n hnwf
    rw [stringify_num, numLit_render_eq]
    cases hneg : n.neg with
    | true =>
      exact ⟨'-', n.ip ++ (fracRender n.frac ++ expRender n.ex),
        by simp [hneg, List.append_assoc], by decide, by decide, by decide,
        by decide⟩
    | false =>
      cases hip : n.ip with
      | nil => exact absurd hip hne
      | cons c ds =>
        have hdig : isDigitC c = true := by
          rw [hip] at hall
          simp only [allDigits, List.all_cons, Bool.and_eq_true] at hall
          exact hall.1
        have hf := digit_facts c hdig
        exact ⟨c, ds ++ (fracRender n.frac ++ expRender n.ex),
          by simp [hneg, hip, List.append_assoc], hf.1, hf.2.1, hf.2.2.1,
          hf.2.2.2.1⟩
  | str s =>
    exact ⟨'"', _, stringify_str s, by decide, by decide, by decide, by decide⟩
  | arr xs =>
    cases xs with
    | nil => exact ⟨'[', _, stringify_arr_nil, by decide, by decide, by decide,
        by decide⟩
    | cons x tl => exact ⟨'[', _, stringify_arr_cons x tl, by decide,
        by decide, by decide, by decide⟩
  | obj fs =>
    cases fs with
    | fnil => exact ⟨'{', _, stringify_obj_fnil, by decide, by decide,
        by decide, by decide⟩
    | fcons k v tl => exact ⟨'{', _, stringify_obj_fcons k v tl, by decide,
        by decide, by decide, by decide⟩

/-- Boundary requirement placed on what follows a serialized value. -/
def ValBoundary : Json → Str → Prop
  | .num _, rest => NumBoundary rest
  | _, _ => True

theorem sizeL_pos (xs : JsonList) : 1 ≤ sizeL xs := by
  cases xs <;> simp [sizeL] <;> omega

theorem sizeF_pos (fs : JsonFields) : 1 ≤ sizeF fs := by
  cases fs <;> simp [sizeF] <;> omega

theorem fFreshB_fnil (fs : JsonFields) : fFreshB .fnil fs = true := by
  induction fs using jsonFieldsInd with
  | h1 => rfl
  | h2 k v tl ih => simp [fFreshB, fHasKey, ih]

theorem fFresh_step (acc : JsonFields) (k : Str) (v : Json) (fs : JsonFields)
    (hfr : fFreshB acc fs = true) (hnk : fHasKey fs k = false) :
    fFreshB (fInsert acc k v) fs = true := by
  induction fs using jsonFieldsInd with
  | h1 => rfl
  | h2 k2 v2 tl ih =>
    simp only [fFreshB, Bool.and_eq_true, Bool.not_eq_true'] at hfr ⊢
    simp only [fHasKey, Bool.or_eq_false_iff] at hnk
    refine ⟨?_, ih hfr.2 hnk.2⟩
    rw [fHasKey_fInsert]
    simp only [Bool.or_eq_false_iff]
    refine ⟨hfr.1, ?_⟩
    simp only [decide_eq_false_iff_not]
    intro he
    rw [he] at hnk
    simp at hnk

mutual
theorem parseVal_stringify : ∀ (j : Json), JsonWf j = true → ∀ (fuel : Nat)
    (rest : Str), 2 * (stringify j).length + 1 ≤ fuel → ValBoundary j rest →
    parseVal fuel (stringify j ++ rest) = some (j, rest)
  | .null, _, fuel, rest, hfuel, _ => by
    obtain ⟨f, rfl⟩ : ∃ f, fuel = f + 1 := by
      cases fuel with
      | zero => omega
      | succ f => exact ⟨f, rfl⟩
    rw [stringify_null]
    rfl
  | .bool true, _, fuel, rest, hfuel, _ => by
    obtain ⟨f, rfl⟩ : ∃ f, fuel = f + 1 := by
      cases fuel with
      | zero => omega
      | succ f => exact ⟨f, rfl⟩
    rw [stringify_true]
    rfl
  | .bool false, _, fuel, rest, hfuel, _ => by
    obtain ⟨f, rfl⟩ : ∃ f, fuel = f + 1 := by
      cases fuel with
      | zero => omega
      | succ f => exact ⟨f, rfl⟩
    rw [stringify_false]
    rfl
  | .num n, hwf, fuel, rest, hfuel, hb => by
    obtain ⟨f, rfl⟩ : ∃ f, fuel = f + 1 := by
      cases fuel with
      | zero => omega
      | succ f => exact ⟨f, rfl⟩
    have hnwf : n.wf = true := by simpa [JsonWf] using hwf
    have hnb : NumBoundary rest := by simpa [ValBoundary] using hb
    have hpn := parseNumLit_render n hnwf rest hnb
    obtain ⟨hall, hne, hlz, hfr, hex⟩ := numLit_wf_parts n hnwf
    rw [stringify_num]
    cases hneg : n.neg with
    | true =>
      have hshape : n.render ++ rest =
          '-' :: (n.ip ++ (fracRender n.frac ++ (expRender n.ex ++ rest))) := by
        rw [numLit_render_eq, hneg]
        simp [List.append_assoc]
      rw [hshape]
      simp only [parseVal]
      rw [skipWs_not _ _ (by decide)]
      simp only [if_neg (by decide : ¬ ('-' : Char) = 'n'),
        if_neg (by decide : ¬ ('-' : Char) = 't'),
        if_neg (by decide : ¬ ('-' : Char) = 'f'),
        if_neg (by decide : ¬ ('-' : Char) = '"'),
        if_neg (by decide : ¬ ('-' : Char) = '['),
        if_neg (by decide : ¬ ('-' : Char) = '{'),
        if_pos (Or.inl rfl : ('-' : Char) = '-' ∨ isDigitC '-' = true)]
      rw [← hshape, hpn]
      rfl
    | false =>
      cases hip : n.ip with
      | nil => exact absurd hip hne
      | cons c ds =>
        have hdig : isDigitC c = true := by
          rw [hip] at hall
          simp only [allDigits, List.all_cons, Bool.and_eq_true] at hall
          exact hall.1
        have hf := digit_facts c hdig
        have hf2 := digit_facts2 c hdig
        have hshape : n.render ++ rest =
            c :: (ds ++ (fracRender n.frac ++ (expRender n.ex ++ rest))) := by
          rw [numLit_render_eq, hneg, hip]
          simp [List.append_assoc]
        rw [hshape]
        simp only [parseVal]
        rw [skipWs_not _ _ hf.1]
        simp only [if_neg hf2.1, if_neg hf2.2.1, if_neg hf2.2.2.1,
          if_neg hf2.2.2.2.1, if_neg hf2.2.2.2.2.1, if_neg hf2.2.2.2.2.2,
          if_pos (Or.inr hdig : c = '-' ∨ isDigitC c = true)]
        rw [← hshape, hpn]
        rfl
  | .str s, _, fuel, rest, hfuel, _ => by
    obtain ⟨f, rfl⟩ : ∃ f, fuel = f + 1 := by
      cases fuel with
      | zero => omega
      | succ f => exact ⟨f, rfl⟩
    rw [stringify_str]
    have hshape : ('"' :: (escStr s ++ ['"'])) ++ rest =
        '"' :: (escStr s ++ '"' :: rest) := by simp
    rw [hshape]
    simp only [parseVal]
    rw [skipWs_not _ _ (by decide)]
    simp only [if_neg (by decide : ¬ ('"' : Char) = 'n'),
      if_neg (by decide : ¬ ('"' : Char) = 't'),
      if_neg (by decide : ¬ ('"' : Char) = 'f'), if_pos rfl]
    rw [parseStrRest_esc]
    rfl
  | .arr .nil, _, fuel, rest, hfuel, _ => by
    obtain ⟨f, rfl⟩ : ∃ f, fuel = f + 1 := by
      cases fuel with
      | zero => omega
      | succ f => exact ⟨f, rfl⟩
    rw [stringify_arr_nil]
    rfl
  | .arr (.cons x tl), hwf, fuel, rest, hfuel, _ => by
    obtain ⟨f, rfl⟩ : ∃ f, fuel = f + 1 := by
      cases fuel with
      | zero => omega
      | succ f => exact ⟨f, rfl⟩
    have hwf' : JsonWf x = true ∧ JsonListWf tl = true := by
      simpa [JsonWf, JsonListWf, Bool.and_eq_true] using hwf
    obtain ⟨hwx, hwtl⟩ := hwf'
    have hlen : (stringify (Json.arr (.cons x tl))).length =
        (stringify x).length + (stringifyListRest tl).length + 2 := by
      rw [stringify_arr_cons]
      simp only [List.length_cons, List.length_append, List.length_nil]
    rw [stringify_arr_cons]
    have hshape : ('[' :: (stringify x ++ stringifyListRest tl ++ [']'])) ++
        rest = '[' :: (stringify x ++ (stringifyListRest tl ++
          (']' :: rest))) := by simp [List.append_assoc]
    rw [hshape]
    simp only [parseVal]
    rw [skipWs_not _ _ (by decide)]
    simp only [if_neg (by decide : ¬ ('[' : Char) = 'n'),
      if_neg (by decide : ¬ ('[' : Char) = 't'),
      if_neg (by decide : ¬ ('[' : Char) = 'f'),
      if_neg (by decide : ¬ ('[' : Char) = '"'), if_pos rfl]
    obtain ⟨c, cs, hsh, hws, hne1, hne2, hne3⟩ := stringify_head x hwx
    have hsw : skipWs (stringify x ++ (stringifyListRest tl ++
        (']' :: rest))) = c :: (cs ++ (stringifyListRest tl ++
        (']' :: rest))) := by
      rw [hsh, List.cons_append]
      exact skipWs_not _ _ hws
    have hcond : ¬ ((c :: (cs ++ (stringifyListRest tl ++
        (']' :: rest)))).headD ' ' = ']') := by simpa using hne1
    have hfe : 2 * (stringify x ++ stringifyListRest tl).length + 2 ≤ f := by
      simp only [List.length_append]
      omega
    rw [hsw, if_neg hcond]
    rw [parseElems_stringify x tl hwx hwtl f rest hfe]
    rfl
  | .obj .fnil, _, fuel, rest, hfuel, _ => by
    obtain ⟨f, rfl⟩ : ∃ f, fuel = f + 1 := by
      cases fuel with
      | zero => omega
      | succ f => exact ⟨f, rfl⟩
    rw [stringify_obj_fnil]
    rfl
  | .obj (.fcons k v tl), hwf, fuel, rest, hfuel, _ => by
    obtain ⟨f, rfl⟩ : ∃ f, fuel = f + 1 := by
      cases fuel with
      | zero => omega
      | succ f => exact ⟨f, rfl⟩
    have hwf' : (fKeysNodup (JsonFields.fcons k v tl) = true) ∧
        JsonWf v = true ∧ JsonFieldsWf tl = true := by
      simpa [JsonWf, JsonFieldsWf, Bool.and_eq_true, and_assoc] using hwf
    obtain ⟨hnd, hwv, hwtl⟩ := hwf'
    have hlen : (stringify (Json.obj (.fcons k v tl))).length =
        (strPair k v).length + (stringifyFieldsRest tl).length + 2 := by
      rw [stringify_obj_fcons]
      simp only [List.length_cons, List.length_append, List.length_nil]
    rw [stringify_obj_fcons]
    have hshape : ('{' :: (strPair k v ++ stringifyFieldsRest tl ++ ['}'])) ++
        rest = '{' :: (strPair k v ++ (stringifyFieldsRest tl ++
          ('}' :: rest))) := by simp [List.append_assoc]
    rw [hshape]
    simp only [parseVal]
    rw [skipWs_not _ _ (by decide)]
    simp only [if_neg (by decide : ¬ ('{' : Char) = 'n'),
      if_neg (by decide : ¬ ('{' : Char) = 't'),
      if_neg (by decide : ¬ ('{' : Char) = 'f'),
      if_neg (by decide : ¬ ('{' : Char) = '"'),
      if_neg (by decide : ¬ ('{' : Char) = '['), if_pos rfl]
    have hsw : skipWs (strPair k v ++ (stringifyFieldsRest tl ++
        ('}' :: rest))) = '"' :: ((escStr k ++ '"' :: ':' :: stringify v) ++
        (stringifyFieldsRest tl ++ ('}' :: rest))) := by
      rw [strPair_eq, List.cons_append]
      exact skipWs_not _ _ (by decide)
    have hcond : ¬ (('"' :: ((escStr k ++ '"' :: ':' :: stringify v) ++
        (stringifyFieldsRest tl ++ ('}' :: rest)))).headD ' ' = '}') := by
      simp
    have hfe : 2 * (strPair k v ++ stringifyFieldsRest tl).length + 2 ≤
        f := by
      simp only [List.length_append]
      omega
    rw [hsw, if_neg hcond]
    rw [parseMembers_stringify k v tl hwv hwtl hnd .fnil
      (fFreshB_fnil _) f rest hfe]
    rfl
termination_by j _ _ _ _ _ => sizeJ j
decreasing_by
  all_goals simp only [sizeJ, sizeL, sizeF]
  all_goals omega

theorem parseElems_stringify : ∀ (x : Json) (tl : JsonList),
    JsonWf x = true → JsonListWf tl = true → ∀ (fuel : Nat) (rest : Str),
    2 * (stringify x ++ stringifyListRest tl).length + 2 ≤ fuel →
    parseElems fuel (stringify x ++ (stringifyListRest tl ++ (']' :: rest))) =
      some (JsonList.cons x tl, rest)
  | x, .nil, hwx, hwtl, fuel, rest, hfuel => by
    obtain ⟨f, rfl⟩ : ∃ f, fuel = f + 1 := by
      cases fuel with
      | zero => omega
      | succ f => exact ⟨f, rfl⟩
    have hb' : ValBoundary x (stringifyListRest JsonList.nil ++
        (']' :: rest)) := by
      have hnb : NumBoundary (stringifyListRest JsonList.nil ++
          (']' :: rest)) := by
        rw [show stringifyListRest JsonList.nil = ([] : Str) from by
          simp [stringifyListRest], List.nil_append]
        exact Or.inr (Or.inl rfl)
      cases x <;> first | trivial | exact hnb
    simp only [parseElems]
    rw [parseVal_stringify x hwx f _ (by
      simp only [List.length_append] at hfuel
      omega) hb']
    dsimp only
    rw [show stringifyListRest JsonList.nil = ([] : Str) from by
      simp [stringifyListRest], List.nil_append]
    rw [skipWs_not _ _ (by decide)]
    dsimp only
    rw [if_neg (by decide : ¬ (']' : Char) = ','), if_pos rfl]
  | x, .cons y tl', hwx, hwtl, fuel, rest, hfuel => by
    obtain ⟨f, rfl⟩ : ∃ f, fuel = f + 1 := by
      cases fuel with
      | zero => omega
      | succ f => exact ⟨f, rfl⟩
    have hb' : ValBoundary x (stringifyListRest (JsonList.cons y tl') ++
        (']' :: rest)) := by
      have hnb : NumBoundary (stringifyListRest (JsonList.cons y tl') ++
          (']' :: rest)) := by
        rw [stringifyListRest_cons, List.cons_append]
        exact Or.inl rfl
      cases x <;> first | trivial | exact hnb
    simp only [parseElems]
    rw [parseVal_stringify x hwx f _ (by
      simp only [List.length_append] at hfuel
      omega) hb']
    dsimp only
    have hw' : JsonWf y = true ∧ JsonListWf tl' = true := by
      simpa [JsonListWf, Bool.and_eq_true] using hwtl
    have hlen : (stringifyListRest (JsonList.cons y tl')).length =
        1 + (stringify y).length + (stringifyListRest tl').length := by
      rw [stringifyListRest_cons]
      simp only [List.length_cons, List.length_append]
      omega
    have hfe : 2 * (stringify y ++ stringifyListRest tl').length + 2 ≤ f := by
      simp only [List.length_append] at hfuel ⊢
      omega
    have hshape : stringifyListRest (JsonList.cons y tl') ++ (']' :: rest) =
        ',' :: (stringify y ++ (stringifyListRest tl' ++ (']' :: rest))) := by
      rw [stringifyListRest_cons]
      simp [List.append_assoc]
    rw [hshape, skipWs_not _ _ (by decide)]
    dsimp only
    rw [if_pos rfl, parseElems_stringify y tl' hw'.1 hw'.2 f rest hfe]
    rfl
termination_by x tl _ _ _ _ _ => sizeJ x + sizeL tl + 1
decreasing_by
  all_goals simp only [sizeJ, sizeL, sizeF]
  all_goals omega

theorem parseMembers_stringify : ∀ (k : Str) (v : Json) (tl : JsonFields),
    JsonWf v = true → JsonFieldsWf tl = true →
    fKeysNodup (JsonFields.fcons k v tl) = true → ∀ (acc : JsonFields),
    fFreshB acc (JsonFields.fcons k v tl) = true → ∀ (fuel : Nat) (rest : Str),
    2 * (strPair k v ++ stringifyFieldsRest tl).length + 2 ≤ fuel →
    parseMembers fuel acc
      (strPair k v ++ (stringifyFieldsRest tl ++ ('}' :: rest))) =
      some (fAppend acc (JsonFields.fcons k v tl), rest)
  | k, v, .fnil, hwv, hwtl, hnd, acc, hfresh, fuel, rest, hfuel => by
    obtain ⟨f, rfl⟩ : ∃ f, fuel = f + 1 := by
      cases fuel with
      | zero => omega
      | succ f => exact ⟨f, rfl⟩
    have hk0 : fHasKey acc k = false := by
      simp only [fFreshB, Bool.and_eq_true, Bool.not_eq_true'] at hfresh
      exact hfresh.1
    have hlenp : (strPair k v).length =
        (escStr k).length + (stringify v).length + 3 := by
      rw [strPair_eq]
      simp only [List.length_cons, List.length_append]
      omega
    have hbv : ValBoundary v ('}' :: rest) := by
      cases v <;> first | trivial | exact Or.inr (Or.inr rfl)
    have hfe : 2 * (stringify v).length + 1 ≤ f := by
      simp only [List.length_append] at hfuel
      omega
    rw [show stringifyFieldsRest JsonFields.fnil = ([] : Str) from by
      simp [stringifyFieldsRest], List.nil_append]
    have hshape : strPair k v ++ ('}' :: rest) =
        '"' :: (escStr k ++ '"' :: ':' :: (stringify v ++ ('}' :: rest))) := by
      rw [strPair_eq]
      simp [List.append_assoc]
    simp only [parseMembers]
    rw [hshape, skipWs_not _ _ (by decide)]
    dsimp only
    rw [if_pos rfl]
    rw [parseStrRest_esc k (':' :: (stringify v ++ ('}' :: rest)))]
    dsimp only
    rw [skipWs_not _ _ (by decide)]
    dsimp only
    rw [if_pos rfl]
    rw [parseVal_stringify v hwv f _ hfe hbv]
    dsimp only
    rw [skipWs_not _ _ (by decide)]
    dsimp only
    rw [if_neg (by decide : ¬ ('}' : Char) = ','), if_pos rfl,
      fInsert_fresh acc k v hk0]
  | k, v, .fcons k2 v2 tl2, hwv, hwtl, hnd, acc, hfresh, fuel, rest, hfuel => by
    obtain ⟨f, rfl⟩ : ∃ f, fuel = f + 1 := by
      cases fuel with
      | zero => omega
      | succ f => exact ⟨f, rfl⟩
    have hk0 : fHasKey acc k = false ∧
        fFreshB acc (JsonFields.fcons k2 v2 tl2) = true := by
      simp only [fFreshB, Bool.and_eq_true, Bool.not_eq_true'] at hfresh
      exact ⟨hfresh.1, by
        simp only [fFreshB, Bool.and_eq_true, Bool.not_eq_true']
        exact hfresh.2⟩
    have hnd' : fHasKey (JsonFields.fcons k2 v2 tl2) k = false ∧
        fKeysNodup (JsonFields.fcons k2 v2 tl2) = true := by
      simp only [fKeysNodup, Bool.and_eq_true, Bool.not_eq_true'] at hnd
      exact ⟨hnd.1, by
        simp only [fKeysNodup, Bool.and_eq_true, Bool.not_eq_true']
        exact hnd.2⟩
    have hw2 : JsonWf v2 = true ∧ JsonFieldsWf tl2 = true := by
      simpa [JsonFieldsWf, Bool.and_eq_true] using hwtl
    have hlenp : (strPair k v).length =
        (escStr k).length + (stringify v).length + 3 := by
      rw [strPair_eq]
      simp only [List.length_cons, List.length_append]
      omega
    have hlenf : (stringifyFieldsRest (JsonFields.fcons k2 v2 tl2)).length =
        1 + (strPair k2 v2).length +
          (stringifyFieldsRest tl2).length := by
      rw [stringifyFieldsRest_fcons]
      simp only [List.length_cons, List.length_append]
      omega
    have hbv : ValBoundary v
        (stringifyFieldsRest (JsonFields.fcons k2 v2 tl2) ++
          ('}' :: rest)) := by
      have hnb : NumBoundary (stringifyFieldsRest (JsonFields.fcons k2 v2 tl2)
          ++ ('}' :: rest)) := by
        rw [stringifyFieldsRest_fcons, List.cons_append]
        exact Or.inl rfl
      cases v <;> first | trivial | exact hnb
    have hfe : 2 * (stringify v).length + 1 ≤ f := by
      simp only [List.length_append] at hfuel
      omega
    have hfe2 : 2 * (strPair k2 v2 ++ stringifyFieldsRest tl2).length + 2 ≤
        f := by
      simp only [List.length_append] at hfuel ⊢
      omega
    have hshape : strPair k v ++
        (stringifyFieldsRest (JsonFields.fcons k2 v2 tl2) ++ ('}' :: rest)) =
        '"' :: (escStr k ++ '"' :: ':' :: (stringify v ++
          (stringifyFieldsRest (JsonFields.fcons k2 v2 tl2) ++
            ('}' :: rest)))) := by
      rw [strPair_eq]
      simp [List.append_assoc]
    simp only [parseMembers]
    rw [hshape, skipWs_not _ _ (by decide)]
    dsimp only
    rw [if_pos rfl]
    rw [parseStrRest_esc k (':' :: (stringify v ++
      (stringifyFieldsRest (JsonFields.fcons k2 v2 tl2) ++ ('}' :: rest))))]
    dsimp only
    rw [skipWs_not _ _ (by decide)]
    dsimp only
    rw [if_pos rfl]
    rw [parseVal_stringify v hwv f _ hfe hbv]
    dsimp only
    have hshape2 : stringifyFieldsRest (JsonFields.fcons k2 v2 tl2) ++
        ('}' :: rest) = ',' :: (strPair k2 v2 ++
          (stringifyFieldsRest tl2 ++ ('}' :: rest))) := by
      rw [stringifyFieldsRest_fcons]
      simp [List.append_assoc]
    rw [hshape2, skipWs_not _ _ (by decide)]
    dsimp only
    rw [if_pos rfl]
    rw [parseMembers_stringify k2 v2 tl2 hw2.1 hw2.2 hnd'.2
      (fInsert acc k v)
      (fFresh_step acc k v (JsonFields.fcons k2 v2 tl2) hk0.2 hnd'.1)
      f rest hfe2]
    rw [fInsert_fresh acc k v hk0.1, fAppend_fcons]
termination_by k v tl _ _ _ _ _ _ _ _ => sizeJ v + sizeF tl + 1
decreasing_by
  all_goals simp only [sizeJ, sizeL, sizeF]
  all_goals omega
end

/-- Round trip: parsing a serialized well-formed JSON value restores it
exactly. -/
theorem jsonParse_stringify (j : Json) (hwf : JsonWf j = true) :
    jsonParse (stringify j) = some j := by
  unfold jsonParse
  have hb : ValBoundary j [] := by
    cases j <;> trivial
  have h := parseVal_stringify j hwf (2 * (stringify j).length + 2) []
    (by omega) hb
  rw [List.append_nil] at h
  rw [h]
  rfl

/-! ## Characters of serialized JSON -/

/-- Characters that the serializer can emit besides the contents of
string literals. -/
def jsonStructChar (c : Char) : Bool :=
  c = '{' || c = '}' || c = '[' || c = ']' || c = ':' || c = ',' || c = '"' ||
  c = '\\' || c = '-' || c = '+' || c = '.' || c = 'n' || c = 'u' || c = 'l' ||
  c = 't' || c = 'r' || c = 'e' || c = 'f' || c = 'a' || c = 's' || c = 'b' ||
  c = 'E' || isDigitC c || ('a' ≤ c && c ≤ 'f')

mutual
/-- No string literal of the value contains the character. -/
def JsonAvoidB (bad : Char) : Json → Bool
  | .null => true
  | .bool _ => true
  | .num _ => true
  | .str s => s.all (fun c => c != bad)
  | .arr xs => JsonListAvoidB bad xs
  | .obj fs => JsonFieldsAvoidB bad fs
/-- Avoidance for list elements. -/
def JsonListAvoidB (bad : Char) : JsonList → Bool
  | .nil => true
  | .cons j tl => JsonAvoidB bad j && JsonListAvoidB bad tl
/-- Avoidance for object fields, keys included. -/
def JsonFieldsAvoidB (bad : Char) : JsonFields → Bool
  | .fnil => true
  | .fcons k v tl =>
    k.all (fun c => c != bad) && JsonAvoidB bad v && JsonFieldsAvoidB bad tl
end

theorem digit_struct (c : Char) (h : isDigitC c = true) :
    jsonStructChar c = true := by
  simp [jsonStructChar, h]

theorem struct_lit_notmem (bad : Char) (hst : jsonStructChar bad = false)
    (l : Str) (hl : ∀ c ∈ l, jsonStructChar c = true) : bad ∉ l := by
  intro hmem
  rw [hl bad hmem] at hst
  exact Bool.noConfusion hst

theorem mem_escChar_struct (c c0 : Char) (h : c0 ∈ escChar c) :
    c0 = c ∨ jsonStructChar c0 = true := by
  unfold escChar at h
  by_cases h1 : c = '"'
  · rw [if_pos h1] at h
    right
    simp only [List.mem_cons, List.not_mem_nil, or_false] at h
    rcases h with h | h <;> rw [h] <;> decide
  · rw [if_neg h1] at h
    by_cases h2 : c = '\\'
    · rw [if_pos h2] at h
      right
      simp only [List.mem_cons, List.not_mem_nil, or_false] at h
      rcases h with h | h <;> rw [h] <;> decide
    · rw [if_neg h2] at h
      by_cases h3 : c = Char.ofNat 8
      · rw [if_pos h3] at h
        right
        simp only [List.mem_cons, List.not_mem_nil, or_false] at h
        rcases h with h | h <;> rw [h] <;> decide
      · rw [if_neg h3] at h
        by_cases h4 : c = Char.ofNat 9
        · rw [if_pos h4] at h
          right
          simp only [List.mem_cons, List.not_mem_nil, or_false] at h
          rcases h with h | h <;> rw [h] <;> decide
        · rw [if_neg h4] at h
          by_cases h5 : c = Char.ofNat 10
          · rw [if_pos h5] at h
            right
            simp only [List.mem_cons, List.not_mem_nil, or_false] at h
            rcases h with h | h <;> rw [h] <;> decide
          · rw [if_neg h5] at h
            by_cases h6 : c = Char.ofNat 12
            · rw [if_pos h6] at h
              right
              simp only [List.mem_cons, List.not_mem_nil, or_false] at h
              rcases h with h | h <;> rw [h] <;> decide
            · rw [if_neg h6] at h
              by_cases h7 : c = Char.ofNat 13
              · rw [if_pos h7] at h
                right
                simp only [List.mem_cons, List.not_mem_nil, or_false] at h
                rcases h with h | h <;> rw [h] <;> decide
              · rw [if_neg h7] at h
                by_cases h8 : c.toNat < 32
                · rw [if_pos h8] at h
                  right
                  have hlo : jsonStructChar (hexDigitL (c.toNat / 16)) =
                      true := by
                    have h16 : c.toNat / 16 < 16 := by omega
                    revert h16
                    generalize c.toNat / 16 = m
                    revert m
                    decide
                  have hhi : jsonStructChar (hexDigitL (c.toNat % 16)) =
                      true := by
                    have h16 : c.toNat % 16 < 16 := by omega
                    revert h16
                    generalize c.toNat % 16 = m
                    revert m
                    decide
                  simp only [List.mem_cons, List.not_mem_nil, or_false] at h
                  rcases h with h | h | h | h | h | h
                  · rw [h]; decide
                  · rw [h]; decide
                  · rw [h]; decide
                  · rw [h]; decide
                  · rw [h]; exact hlo
                  · rw [h]; exact hhi
                · rw [if_neg h8] at h
                  left
                  simpa using h

theorem notmem_escStr (bad : Char) (hst : jsonStructChar bad = false)
    (s : Str) (hs : s.all (fun c => c != bad) = true) : bad ∉ escStr s := by
  induction s with
  | nil => simp [escStr]
  | cons c cs ih =>
    simp only [List.all_cons, Bool.and_eq_true] at hs
    intro hmem
    simp only [escStr, List.mem_append] at hmem
    rcases hmem with h | h
    · rcases mem_escChar_struct c bad h with h1 | h1
      · rw [h1] at hs
        simp at hs
      · rw [h1] at hst
        exact Bool.noConfusion hst
    · exact ih hs.2 h

theorem notmem_render (bad : Char) (hst : jsonStructChar bad = false)
    (n : NumLit) (hwf : n.wf = true) : bad ∉ n.render := by
  obtain ⟨hall, hne, hlz, hfr, hex⟩ := numLit_wf_parts n hwf
  rw [numLit_render_eq]
  intro hmem
  simp only [List.mem_append] at hmem
  have hdig : ∀ d : Str, allDigits d = true → bad ∉ d := by
    intro d hd hm
    have : isDigitC bad = true := by
      simp only [allDigits, List.all_eq_true] at hd
      exact hd bad hm
    rw [digit_struct bad this] at hst
    exact Bool.noConfusion hst
  rcases hmem with ((h | h) | h) | h
  · cases hneg : n.neg with
    | true =>
      rw [hneg] at h
      simp only [if_true, List.mem_singleton] at h
      rw [h] at hst
      exact absurd hst (by decide)
    | false =>
      rw [hneg] at h
      simp at h
  · exact hdig n.ip hall h
  · revert hfr h
    cases n.frac with
    | none => intro hfr h; simp [fracRender] at h
    | some fr =>
      intro hfr h
      simp only [fracRender, List.mem_cons] at h
      rcases h with h | h
      · rw [h] at hst
        exact absurd hst (by decide)
      · exact hdig fr hfr.1 h
  · revert hex h
    cases n.ex with
    | none => intro hex h; simp [expRender] at h
    | some e =>
      intro hex h
      simp only [expRender, ExpPart.render, List.mem_append] at h
      rcases h with (h | h) | h
      · revert h
        cases e.mark with
        | lower =>
          intro h
          simp only [List.mem_singleton] at h
          rw [h] at hst
          exact absurd hst (by decide)
        | upper =>
          intro h
          simp only [List.mem_singleton] at h
          rw [h] at hst
          exact absurd hst (by decide)
      · revert h
        cases e.sign with
        | none => intro h; simp at h
        | some sgn =>
          cases sgn with
          | false =>
            intro h
            simp only [List.mem_singleton] at h
            rw [h] at hst
            exact absurd hst (by decide)
          | true =>
            intro h
            simp only [List.mem_singleton] at h
            rw [h] at hst
            exact absurd hst (by decide)
      · exact hdig e.digits hex.1 h

theorem struct_char_ne (bad : Char) (hst : jsonStructChar bad = false)
    (c : Char) (hc : jsonStructChar c = true) : ¬ bad = c := by
  intro he
  rw [he, hc] at hst
  exact Bool.noConfusion hst

mutual
theorem stringify_avoid : ∀ (bad : Char), jsonStructChar bad = false →
    ∀ (j : Json), JsonWf j = true → JsonAvoidB bad j = true →
    bad ∉ stringify j
  | bad, hst, .null, _, _ => by
    rw [stringify_null]
    exact struct_lit_notmem bad hst _ (by decide)
  | bad, hst, .bool true, _, _ => by
    rw [stringify_true]
    exact struct_lit_notmem bad hst _ (by decide)
  | bad, hst, .bool false, _, _ => by
    rw [stringify_false]
    exact struct_lit_notmem bad hst _ (by decide)
  | bad, hst, .num n, hwf, _ => by
    rw [stringify_num]
    exact notmem_render bad hst n (by simpa [JsonWf] using hwf)
  | bad, hst, .str s, _, hav => by
    rw [stringify_str]
    have havs : s.all (fun c => c != bad) = true := by
      simpa [JsonAvoidB] using hav
    have h1 : bad ∉ escStr s := notmem_escStr bad hst s havs
    intro hmem
    simp only [List.mem_cons, List.mem_append, List.mem_singleton,
      struct_char_ne bad hst '"' (by decide), h1, or_false, false_or] at hmem
    exact (List.not_mem_nil bad) hmem
  | bad, hst, .arr .nil, _, _ => by
    rw [stringify_arr_nil]
    exact struct_lit_notmem bad hst _ (by decide)
  | bad, hst, .arr (.cons x tl), hwf, hav => by
    rw [stringify_arr_cons]
    have hw : JsonWf x = true ∧ JsonListWf tl = true := by
      simpa [JsonWf, JsonListWf, Bool.and_eq_true] using hwf
    have ha : JsonAvoidB bad x = true ∧ JsonListAvoidB bad tl = true := by
      simpa [JsonAvoidB, JsonListAvoidB, Bool.and_eq_true] using hav
    have h1 : bad ∉ stringify x := stringify_avoid bad hst x hw.1 ha.1
    have h2 : bad ∉ stringifyListRest tl := listRest_avoid bad hst tl hw.2 ha.2
    intro hmem
    simp only [List.mem_cons, List.mem_append, List.mem_singleton,
      struct_char_ne bad hst '[' (by decide),
      struct_char_ne bad hst ']' (by decide), h1, h2, or_false,
      false_or] at hmem
    exact (List.not_mem_nil bad) hmem
  | bad, hst, .obj .fnil, _, _ => by
    rw [stringify_obj_fnil]
    exact struct_lit_notmem bad hst _ (by decide)
  | bad, hst, .obj (.fcons k v tl), hwf, hav => by
    rw [stringify_obj_fcons, strPair_eq]
    have hnw : JsonWf v = true ∧ JsonFieldsWf tl = true := by
      have h0 : (fKeysNodup (JsonFields.fcons k v tl) &&
          (JsonWf v && JsonFieldsWf tl)) = true := by
        simpa [JsonWf, JsonFieldsWf] using hwf
      simp only [Bool.and_eq_true] at h0
      exact h0.2
    have ha : (k.all (fun c => c != bad) = true ∧ JsonAvoidB bad v = true) ∧
        JsonFieldsAvoidB bad tl = true := by
      simpa [JsonAvoidB, JsonFieldsAvoidB, Bool.and_eq_true] using hav
    have h1 : bad ∉ escStr k := notmem_escStr bad hst k ha.1.1
    have h2 : bad ∉ stringify v := stringify_avoid bad hst v hnw.1 ha.1.2
    have h3 : bad ∉ stringifyFieldsRest tl :=
      fieldsRest_avoid bad hst tl hnw.2 ha.2
    intro hmem
    simp only [List.mem_cons, List.mem_append, List.mem_singleton,
      struct_char_ne bad hst '{' (by decide),
      struct_char_ne bad hst '}' (by decide),
      struct_char_ne bad hst '"' (by decide),
      struct_char_ne bad hst ':' (by decide), h1, h2, h3, or_false,
      false_or] at hmem
    exact (List.not_mem_nil bad) hmem
termination_by bad hst j hwf hav => sizeJ j
decreasing_by
  all_goals simp only [sizeJ, sizeL, sizeF]
  all_goals omega
theorem listRest_avoid : ∀ (bad : Char), jsonStructChar bad = false →
    ∀ (tl : JsonList), JsonListWf tl = true → JsonListAvoidB bad tl = true →
    bad ∉ stringifyListRest tl
  | bad, hst, .nil, _, _ => by
    rw [show stringifyListRest JsonList.nil = ([] : Str) from by
      simp [stringifyListRest]]
    simp
  | bad, hst, .cons y tl', hwf, hav => by
    rw [stringifyListRest_cons]
    have hw : JsonWf y = true ∧ JsonListWf tl' = true := by
      simpa [JsonListWf, Bool.and_eq_true] using hwf
    have ha : JsonAvoidB bad y = true ∧ JsonListAvoidB bad tl' = true := by
      simpa [JsonListAvoidB, Bool.and_eq_true] using hav
    have h1 : bad ∉ stringify y := stringify_avoid bad hst y hw.1 ha.1
    have h2 : bad ∉ stringifyListRest tl' :=
      listRest_avoid bad hst tl' hw.2 ha.2
    intro hmem
    simp only [List.mem_cons, List.mem_append,
      struct_char_ne bad hst ',' (by decide), h1, h2, or_false,
      false_or] at hmem
termination_by bad hst tl hwf hav => sizeL tl
decreasing_by
  all_goals simp only [sizeJ, sizeL, sizeF]
  all_goals omega
theorem fieldsRest_avoid : ∀ (bad : Char), jsonStructChar bad = false →
    ∀ (fs : JsonFields), JsonFieldsWf fs = true →
    JsonFieldsAvoidB bad fs = true → bad ∉ stringifyFieldsRest fs
  | bad, hst, .fnil, _, _ => by
    rw [show stringifyFieldsRest JsonFields.fnil = ([] : Str) from by
      simp [stringifyFieldsRest]]
    simp
  | bad, hst, .fcons k v tl, hwf, hav => by
    rw [stringifyFieldsRest_fcons, strPair_eq]
    have hw : JsonWf v = true ∧ JsonFieldsWf tl = true := by
      simpa [JsonFieldsWf, Bool.and_eq_true] using hwf
    have ha : (k.all (fun c => c != bad) = true ∧ JsonAvoidB bad v = true) ∧
        JsonFieldsAvoidB bad tl = true := by
      simpa [JsonAvoidB, JsonFieldsAvoidB, Bool.and_eq_true] using hav
    have h1 : bad ∉ escStr k := notmem_escStr bad hst k ha.1.1
    have h2 : bad ∉ stringify v := stringify_avoid bad hst v hw.1 ha.1.2
    have h3 : bad ∉ stringifyFieldsRest tl :=
      fieldsRest_avoid bad hst tl hw.2 ha.2
    intro hmem
    simp only [List.mem_cons, List.mem_append,
      struct_char_ne bad hst ',' (by decide),
      struct_char_ne bad hst '"' (by decide),
      struct_char_ne bad hst ':' (by decide), h1, h2, h3, or_false,
      false_or] at hmem
termination_by bad hst fs hwf hav => sizeF fs
decreasing_by
  all_goals simp only [sizeJ, sizeL, sizeF]
  all_goals omega
end

/-! ## The `fides_consent` cookie logic of the source (part_001) -/

def consentKey : Str := strL "consent"

def advKey : Str := strL "advertising_and_email_signup"

def identityKey : Str := strL "identity"

def deviceKey : Str := strL "fides_user_device_id"

def metaKey : Str := strL "fides_meta"

def versionKey : Str := strL "version"

def createdAtKey : Str := strL "createdAt"

def updatedAtKey : Str := strL "updatedAt"

def versionVal : Str := strL "0.9.0"

/-- The default consent object built by `setOrCheckFidesConsentCookie`
(part_001 lines 130-138): consent flag false, fresh device id from
`uuidv4()` (modelled by `uuid`), and metadata with schema version and
the two `new Date().toISOString()` stamps (modelled by `now1`, `now2`;
the source calls the clock twice). -/
def consentObject (uuid now1 now2 : Str) : Json :=
  Json.obj (.fcons consentKey
    (Json.obj (.fcons advKey (Json.bool false) .fnil))
    (.fcons identityKey
      (Json.obj (.fcons deviceKey (Json.str uuid) .fnil))
      (.fcons metaKey
        (Json.obj (.fcons versionKey (Json.str versionVal)
          (.fcons createdAtKey (Json.str now1)
            (.fcons updatedAtKey (Json.str now2) .fnil)))) .fnil)))

/-- Field lookup on a JSON object; `none` models JavaScript `undefined`. -/
def objGet : JsonFields → Str → Option Json
  | .fnil, _ => none
  | .fcons k0 v0 tl, k => if k0 = k then some v0 else objGet tl k

/-- Property read on a JSON value, as JavaScript sees it. -/
def getField (j : Json) (k : Str) : Option Json :=
  match j with
  | .obj fs => objGet fs k
  | _ => none

/-- The device id stored in a consent record:
`record.identity.fides_user_device_id`. -/
def recordDeviceId (j : Json) : Option Json :=
  (getField j identityKey).bind (fun v => getField v deviceKey)

/-- The else-branch of `setOrCheckFidesConsentCookie` (part_001 lines
130-140): builds the default record and assigns the cookie line holding
the raw `JSON.stringify` output (this branch does not call
`encodeCookie`). -/
def createConsentCookie (uuid now1 now2 : Str) (jar : Option Str) :
    Json × Option Str :=
  (consentObject uuid now1 now2,
   browserWrite (cookieLine (stringify (consentObject uuid now1 now2))) jar)

/-- Model of `setOrCheckFidesConsentCookie` (part_001 lines 125-141).
An error is a `URIError` from `decodeCookie` in `getCookie` or a
`SyntaxError` from `JSON.parse`, which nothing in the source catches. -/
def setOrCheckFidesConsentCookie (uuid now1 now2 : Str) (jar : Option Str) :
    Except Unit (Json × Option Str) :=
  match getCookie fidesName jar with
  | .error e => .error e
  | .ok existingCookieValue =>
    match existingCookieValue with
    | some d =>
      if d = [] then .ok (createConsentCookie uuid now1 now2 jar)
      else
        match jsonParse d with
        | none => .error ()
        | some j => .ok (j, jar)
    | none => .ok (createConsentCookie uuid now1 now2 jar)

/-- Model of `parsedData.consent.advertising_and_email_signup = value`
(part_001 line 90): throws (`none`) when `consent` is missing, `null`,
or a primitive; assignment on an existing key keeps its position, a new
key is appended. -/
def setConsentField (j : Json) (value : Bool) : Option Json :=
  match j with
  | .obj fs =>
    match objGet fs consentKey with
    | some (Json.obj cfs) =>
      some (Json.obj (fInsert fs consentKey
        (Json.obj (fInsert cfs advKey (Json.bool value)))))
    | _ => none
  | _ => none

/-- Model of `updateConsentCookie` (part_001 lines 86-93): reads and
decodes the cookie, skips silently when absent or empty, parses it,
mutates the consent flag, and re-persists the record percent-encoded
(`encodeCookie`). -/
def updateConsentCookie (value : Bool) (jar : Option Str) :
    Except Unit (Option Str) :=
  match getCookie fidesName jar with
  | .error e => .error e
  | .ok none => .ok jar
  | .ok (some d) =>
    if d = [] then .ok jar
    else
      match jsonParse d with
      | none => .error ()
      | some parsedData =>
        match setConsentField parsedData value with
        | none => .error ()
        | some parsedData2 =>
          .ok (browserWrite
            (cookieLine (encodeURIComponentL (stringify parsedData2))) jar)

/-- The literal keys and string literals of `consentObject` avoid `bad`. -/
def consentLitsAvoid (bad : Char) : Bool :=
  (consentKey ++ advKey ++ identityKey ++ deviceKey ++ metaKey ++
   versionKey ++ createdAtKey ++ updatedAtKey ++ versionVal).all
    (fun c => c != bad)

theorem consentObject_wf (uuid now1 now2 : Str) :
    JsonWf (consentObject uuid now1 now2) = true := by
  simp [consentObject, JsonWf, JsonListWf, JsonFieldsWf, fKeysNodup, fHasKey,
    consentKey, advKey, identityKey, deviceKey, metaKey, versionKey,
    createdAtKey, updatedAtKey, versionVal, strL]

theorem consentObject_avoid (bad : Char) (uuid now1 now2 : Str)
    (hu : uuid.all (fun c => c != bad) = true)
    (h1 : now1.all (fun c => c != bad) = true)
    (h2 : now2.all (fun c => c != bad) = true)
    (hlit : consentLitsAvoid bad = true) :
    JsonAvoidB bad (consentObject uuid now1 now2) = true := by
  simp [consentLitsAvoid, List.all_append] at hlit
  obtain ⟨l1, l2, l3, l4, l5, l6, l7, l8, l9⟩ := hlit
  simp [consentObject, JsonAvoidB, JsonListAvoidB, JsonFieldsAvoidB,
    l1, l2, l3, l4, l5, l6, l7, l8, l9, hu, h1, h2]
  exact ⟨⟨l1, l2⟩, ⟨l3, l4⟩, l5, ⟨l6, l9⟩, l7, l8⟩

/-- Strings safe to embed in a raw cookie value: free of the delimiter
`;`, the escape `%`, and `=`. Holds for `uuidv4()` output and ISO-8601
timestamps. -/
def rawSafe (s : Str) : Bool :=
  s.all (fun c => c != ';' && c != '%' && c != '=')

theorem rawSafe_avoid (s : Str) (h : rawSafe s = true) (bad : Char)
    (hb : bad = ';' ∨ bad = '%' ∨ bad = '=') :
    s.all (fun c => c != bad) = true := by
  simp only [rawSafe, List.all_eq_true, Bool.and_eq_true, bne_iff_ne,
    ne_eq] at h ⊢
  intro c hc
  rcases hb with hb | hb | hb <;> subst hb <;>
    rcases h c hc with ⟨⟨h1, h2⟩, h3⟩ <;> assumption

theorem stringify_consent_no (uuid now1 now2 : Str)
    (hu : rawSafe uuid = true) (h1 : rawSafe now1 = true)
    (h2 : rawSafe now2 = true) (bad : Char)
    (hb : bad = ';' ∨ bad = '%' ∨ bad = '=') :
    bad ∉ stringify (consentObject uuid now1 now2) := by
  refine stringify_avoid bad ?_ _ (consentObject_wf uuid now1 now2)
    (consentObject_avoid bad uuid now1 now2 (rawSafe_avoid _ hu _ hb)
      (rawSafe_avoid _ h1 _ hb) (rawSafe_avoid _ h2 _ hb) ?_)
  · rcases hb with hb | hb | hb <;> subst hb <;> decide
  · rcases hb with hb | hb | hb <;> subst hb <;> decide

/-- `record.identity.fides_user_device_id` of the default record is the
generated uuid. -/
theorem recordDeviceId_consentObject (uuid now1 now2 : Str) :
    recordDeviceId (consentObject uuid now1 now2) = some (Json.str uuid) := by
  simp [recordDeviceId, consentObject, getField, objGet,
    show ¬ (consentKey = identityKey) from by decide]

/-- On an empty jar, `setOrCheckFidesConsentCookie` creates the default
record and persists its raw `JSON.stringify` text. -/
theorem setOrCheck_create (uuid now1 now2 : Str)
    (hu : rawSafe uuid = true) (h1 : rawSafe now1 = true)
    (h2 : rawSafe now2 = true) :
    setOrCheckFidesConsentCookie uuid now1 now2 none =
      Except.ok (consentObject uuid now1 now2,
        some (stringify (consentObject uuid now1 now2))) := by
  simp only [setOrCheckFidesConsentCookie, getCookie_none,
    createConsentCookie]
  rw [browserWrite_cookieLine _ _
    (stringify_consent_no uuid now1 now2 hu h1 h2 ';' (Or.inl rfl))]

/-- On a jar holding the serialized default record, every later
`setOrCheckFidesConsentCookie` call returns that same record and leaves
the jar untouched. -/
theorem setOrCheck_load (uuid' now1' now2' u n1 n2 : Str)
    (hu : rawSafe u = true) (h1 : rawSafe n1 = true)
    (h2 : rawSafe n2 = true) :
    setOrCheckFidesConsentCookie uuid' now1' now2'
      (some (stringify (consentObject u n1 n2))) =
      Except.ok (consentObject u n1 n2,
        some (stringify (consentObject u n1 n2))) := by
  have hsemi := stringify_consent_no u n1 n2 hu h1 h2 ';' (Or.inl rfl)
  have hpct := stringify_consent_no u n1 n2 hu h1 h2 '%' (Or.inr (Or.inl rfl))
  simp only [setOrCheckFidesConsentCookie]
  rw [getCookie_some _ hsemi, pctDecode_no_pct _ hpct]
  simp only
  rw [if_neg ?_, jsonParse_stringify _ (consentObject_wf u n1 n2)]
  simp only [consentObject, stringify_obj_fcons]
  simp

/-- A sequence of page loads against the same cookie jar: each run calls
`setOrCheckFidesConsentCookie` with that run's fresh `uuidv4()` and the
two clock readings, against the jar left by the previous run; a thrown
error leaves the jar unchanged. Returns the per-run results in order
and the final jar. -/
def ensureRuns : List (Str × Str × Str) → Option Str →
    List (Except Unit Json) × Option Str
  | [], jar => ([], jar)
  | (u, n1, n2) :: rest, jar =>
    match setOrCheckFidesConsentCookie u n1 n2 jar with
    | .error e =>
      let p := ensureRuns rest jar
      (.error e :: p.1, p.2)
    | .ok (j, jar') =>
      let p := ensureRuns rest jar'
      (.ok j :: p.1, p.2)

theorem ensureRuns_steady (u n1 n2 : Str)
    (hu : rawSafe u = true) (h1 : rawSafe n1 = true)
    (h2 : rawSafe n2 = true) (runs : List (Str × Str × Str)) :
    ensureRuns runs (some (stringify (consentObject u n1 n2))) =
      (runs.map (fun _ => Except.ok (consentObject u n1 n2)),
       some (stringify (consentObject u n1 n2))) := by
  induction runs with
  | nil => rfl
  | cons hd rest ih =>
    obtain ⟨u', n1', n2'⟩ := hd
    simp only [ensureRuns, setOrCheck_load u' n1' n2' u n1 n2 hu h1 h2, ih,
      List.map_cons]

/-- C1: over any sequence of `setOrCheckFidesConsentCookie` runs starting
from an empty jar, every run succeeds and returns the very record created
on the first run — so the returned `identity.fides_user_device_id` is the
first run's uuid every time — and the jar ends (and stays) at the single
serialization written by the first run: the identity is created exactly
once and later runs return the stored value unchanged. -/
theorem C1_ensure_idempotent_identity (u n1 n2 : Str)
    (runs : List (Str × Str × Str))
    (hu : rawSafe u = true) (h1 : rawSafe n1 = true)
    (h2 : rawSafe n2 = true) :
    (ensureRuns ((u, n1, n2) :: runs) none).1 =
      ((u, n1, n2) :: runs).map
        (fun _ => Except.ok (consentObject u n1 n2)) ∧
    (ensureRuns ((u, n1, n2) :: runs) none).2 =
      some (stringify (consentObject u n1 n2)) ∧
    recordDeviceId (consentObject u n1 n2) = some (Json.str u) := by
  have hstep : ensureRuns ((u, n1, n2) :: runs) none =
      (Except.ok (consentObject u n1 n2) ::
        (ensureRuns runs (some (stringify (consentObject u n1 n2)))).1,
       (ensureRuns runs (some (stringify (consentObject u n1 n2)))).2) := by
    simp only [ensureRuns, setOrCheck_create u n1 n2 hu h1 h2]
  rw [hstep, ensureRuns_steady u n1 n2 hu h1 h2 runs]
  exact ⟨by simp, rfl, recordDeviceId_consentObject u n1 n2⟩

theorem C1_ensure_idempotent_identity_witness :
    rawSafe (strL "e5b2-4c") = true ∧
    (ensureRuns ((strL "e5b2-4c", strL "2023-10-05T12:00:00.000Z",
        strL "2023-10-05T12:00:00.001Z") ::
        [(strL "99aa-77", strL "2024-01-01T00:00:00.000Z",
          strL "2024-01-01T00:00:00.000Z"),
         (strL "0b0b-11", strL "2024-06-6T06:06:06.000Z",
          strL "2024-06-6T06:06:06.000Z")]) none).1 =
      ((strL "e5b2-4c", strL "2023-10-05T12:00:00.000Z",
        strL "2023-10-05T12:00:00.001Z") ::
        [(strL "99aa-77", strL "2024-01-01T00:00:00.000Z",
          strL "2024-01-01T00:00:00.000Z"),
         (strL "0b0b-11", strL "2024-06-6T06:06:06.000Z",
          strL "2024-06-6T06:06:06.000Z")]).map
        (fun _ => Except.ok (consentObject (strL "e5b2-4c")
          (strL "2023-10-05T12:00:00.000Z")
          (strL "2023-10-05T12:00:00.001Z"))) ∧
    (ensureRuns ((strL "e5b2-4c", strL "2023-10-05T12:00:00.000Z",
        strL "2023-10-05T12:00:00.001Z") ::
        [(strL "99aa-77", strL "2024-01-01T00:00:00.000Z",
          strL "2024-01-01T00:00:00.000Z"),
         (strL "0b0b-11", strL "2024-06-6T06:06:06.000Z",
          strL "2024-06-6T06:06:06.000Z")]) none).2 =
      some (stringify (consentObject (strL "e5b2-4c")
        (strL "2023-10-05T12:00:00.000Z")
        (strL "2023-10-05T12:00:00.001Z"))) ∧
    recordDeviceId (consentObject (strL "e5b2-4c")
      (strL "2023-10-05T12:00:00.000Z")
      (strL "2023-10-05T12:00:00.001Z")) =
      some (Json.str (strL "e5b2-4c")) :=
  ⟨by decide,
   C1_ensure_idempotent_identity (strL "e5b2-4c")
     (strL "2023-10-05T12:00:00.000Z") (strL "2023-10-05T12:00:00.001Z")
     [(strL "99aa-77", strL "2024-01-01T00:00:00.000Z",
       strL "2024-01-01T00:00:00.000Z"),
      (strL "0b0b-11", strL "2024-06-6T06:06:06.000Z",
       strL "2024-06-6T06:06:06.000Z")]
     (by decide) (by decide) (by decide)⟩

theorem objGet_fInsert (fs : JsonFields) (k : Str) (v : Json) (k0 : Str) :
    objGet (fInsert fs k v) k0 =
      if k0 = k then some v else objGet fs k0 := by
  induction fs using jsonFieldsInd with
  | h1 =>
    simp only [fInsert, objGet]
    by_cases h : k0 = k
    · subst h; simp
    · rw [if_neg (fun hk => h hk.symm), if_neg h]
  | h2 k1 v1 tl ih =>
    by_cases h1 : k1 = k
    · subst h1
      simp only [fInsert, if_pos rfl, objGet]
      by_cases h0 : k1 = k0
      · subst h0; simp
      · rw [if_neg h0, if_neg h0, if_neg (fun hk => h0 hk.symm)]
    · simp only [fInsert, if_neg h1, objGet, ih]
      by_cases h0 : k1 = k0
      · subst h0; simp [h1]
      · simp [h0]

/-- The jar contents after `updateConsentCookie` rewrites a stored
record: the consent flag replaced in place, percent-encoded. -/
theorem updateConsentCookie_stored (fs cfs : JsonFields) (value : Bool)
    (hc : objGet fs consentKey = some (Json.obj cfs))
    (hwf : JsonWf (Json.obj fs) = true)
    (hs : ';' ∉ stringify (Json.obj fs))
    (hp : '%' ∉ stringify (Json.obj fs)) :
    updateConsentCookie value (some (stringify (Json.obj fs))) =
      Except.ok (browserWrite (cookieLine (encodeURIComponentL (stringify
        (Json.obj (fInsert fs consentKey
          (Json.obj (fInsert cfs advKey (Json.bool value))))))))
        (some (stringify (Json.obj fs)))) := by
  obtain ⟨c, cs, hshape, -⟩ := stringify_head (Json.obj fs) hwf
  simp only [updateConsentCookie]
  rw [getCookie_some _ hs, pctDecode_no_pct _ hp]
  simp only
  rw [if_neg (by rw [hshape]; simp), jsonParse_stringify _ hwf]
  simp only [setConsentField, hc]

/-- The record `updateConsentCookie` re-persists: the stored fields with
the consent flag replaced in place. -/
def updatedRecord (fs cfs : JsonFields) (value : Bool) : Json :=
  Json.obj (fInsert fs consentKey
    (Json.obj (fInsert cfs advKey (Json.bool value))))

theorem encode_no_semi (s : Str) : ';' ∉ encodeURIComponentL s :=
  encodeURIComponent_avoid s ';' (by decide) (by decide)
    (by decide)

/-- C6: for every stored record (any JSON object whose `consent` field is
an object, unrecognized fields included) and every consent value,
`updateConsentCookie` re-persists exactly the record with the consent
flag replaced: the new jar holds the encoded serialization of
`updatedRecord`, every top-level field other than `consent` — `identity`
(hence the device id) and `fides_meta` (hence `createdAt`, `updatedAt`
and the schema version) among them — is unchanged, and inside `consent`
every field other than `advertising_and_email_signup` is unchanged. The
change set is thus contained in the claimed \x7bconsent, updatedAt\x7d
frame (`updatedAt` is, in fact, also unchanged). -/
theorem C6_updateConsent_frame (fs cfs : JsonFields) (value : Bool)
    (hc : objGet fs consentKey = some (Json.obj cfs))
    (hwf : JsonWf (Json.obj fs) = true)
    (hs : ';' ∉ stringify (Json.obj fs))
    (hp : '%' ∉ stringify (Json.obj fs)) :
    updateConsentCookie value (some (stringify (Json.obj fs))) =
      Except.ok (some (encodeURIComponentL
        (stringify (updatedRecord fs cfs value)))) ∧
    (∀ k, ¬ k = consentKey →
      getField (updatedRecord fs cfs value) k = getField (Json.obj fs) k) ∧
    getField (updatedRecord fs cfs value) consentKey =
      some (Json.obj (fInsert cfs advKey (Json.bool value))) ∧
    (∀ k2, ¬ k2 = advKey →
      objGet (fInsert cfs advKey (Json.bool value)) k2 = objGet cfs k2) ∧
    objGet (fInsert cfs advKey (Json.bool value)) advKey =
      some (Json.bool value) := by
  refine ⟨?_, ?_, ?_, ?_, ?_⟩
  · rw [updateConsentCookie_stored fs cfs value hc hwf hs hp,
      updatedRecord.eq_def,
      browserWrite_cookieLine _ _ (encode_no_semi _)]
  · intro k hk
    simp only [updatedRecord, getField, objGet_fInsert]
    rw [if_neg hk]
  · simp [updatedRecord, getField, objGet_fInsert]
  · intro k2 hk2
    rw [objGet_fInsert, if_neg hk2]
  · rw [objGet_fInsert, if_pos rfl]

theorem C6_updateConsent_frame_witness :
    objGet (JsonFields.fcons consentKey
        (Json.obj (JsonFields.fcons advKey (Json.bool false)
          (JsonFields.fcons (strL "other_pref") (Json.bool true)
            JsonFields.fnil)))
        (JsonFields.fcons (strL "custom_field") (Json.str (strL "keepme"))
          JsonFields.fnil)) consentKey =
      some (Json.obj (JsonFields.fcons advKey (Json.bool false)
        (JsonFields.fcons (strL "other_pref") (Json.bool true)
          JsonFields.fnil))) ∧
    JsonWf (Json.obj (JsonFields.fcons consentKey
        (Json.obj (JsonFields.fcons advKey (Json.bool false)
          (JsonFields.fcons (strL "other_pref") (Json.bool true)
            JsonFields.fnil)))
        (JsonFields.fcons (strL "custom_field") (Json.str (strL "keepme"))
          JsonFields.fnil))) = true ∧
    updateConsentCookie true (some (stringify (Json.obj
        (JsonFields.fcons consentKey
          (Json.obj (JsonFields.fcons advKey (Json.bool false)
            (JsonFields.fcons (strL "other_pref") (Json.bool true)
              JsonFields.fnil)))
          (JsonFields.fcons (strL "custom_field")
            (Json.str (strL "keepme")) JsonFields.fnil))))) =
      Except.ok (some (encodeURIComponentL (stringify (updatedRecord
        (JsonFields.fcons consentKey
          (Json.obj (JsonFields.fcons advKey (Json.bool false)
            (JsonFields.fcons (strL "other_pref") (Json.bool true)
              JsonFields.fnil)))
          (JsonFields.fcons (strL "custom_field")
            (Json.str (strL "keepme")) JsonFields.fnil))
        (JsonFields.fcons advKey (Json.bool false)
          (JsonFields.fcons (strL "other_pref") (Json.bool true)
            JsonFields.fnil)) true)))) ∧
    getField (updatedRecord
        (JsonFields.fcons consentKey
          (Json.obj (JsonFields.fcons advKey (Json.bool false)
            (JsonFields.fcons (strL "other_pref") (Json.bool true)
              JsonFields.fnil)))
          (JsonFields.fcons (strL "custom_field")
            (Json.str (strL "keepme")) JsonFields.fnil))
        (JsonFields.fcons advKey (Json.bool false)
          (JsonFields.fcons (strL "other_pref") (Json.bool true)
            JsonFields.fnil)) true) (strL "custom_field") =
      some (Json.str (strL "keepme")) := by
  have hlits : ';' ∉ stringify (Json.obj
      (JsonFields.fcons consentKey
        (Json.obj (JsonFields.fcons advKey (Json.bool false)
          (JsonFields.fcons (strL "other_pref") (Json.bool true)
            JsonFields.fnil)))
        (JsonFields.fcons (strL "custom_field")
          (Json.str (strL "keepme")) JsonFields.fnil))) := by
    apply stringify_avoid ';' (by decide) _ (by decide) (by decide)
  have hpct : '%' ∉ stringify (Json.obj
      (JsonFields.fcons consentKey
        (Json.obj (JsonFields.fcons advKey (Json.bool false)
          (JsonFields.fcons (strL "other_pref") (Json.bool true)
            JsonFields.fnil)))
        (JsonFields.fcons (strL "custom_field")
          (Json.str (strL "keepme")) JsonFields.fnil))) := by
    apply stringify_avoid '%' (by decide) _ (by decide) (by decide)
  have hmain := C6_updateConsent_frame
    (JsonFields.fcons consentKey
      (Json.obj (JsonFields.fcons advKey (Json.bool false)
        (JsonFields.fcons (strL "other_pref") (Json.bool true)
          JsonFields.fnil)))
      (JsonFields.fcons (strL "custom_field")
        (Json.str (strL "keepme")) JsonFields.fnil))
    (JsonFields.fcons advKey (Json.bool false)
      (JsonFields.fcons (strL "other_pref") (Json.bool true)
        JsonFields.fnil)) true (by decide) (by decide) hlits hpct
  refine ⟨by decide, by decide, hmain.1, ?_⟩
  rw [hmain.2.1 (strL "custom_field") (by decide)]
  decide

/-- C5 (counterexample): a persisted slot holding the text `oops` — present
and decodable but not valid JSON — makes `setOrCheckFidesConsentCookie`
throw the uncaught `JSON.parse` `SyntaxError` instead of treating the
record as absent: the claimed soft failure does not happen. -/
theorem C5_load_soft_failure_counterexample :
    setOrCheckFidesConsentCookie (strL "u") (strL "t1") (strL "t2")
      (some (strL "oops")) = Except.error () := by rfl

/-- C5 (amended): whenever the stored text is present, nonempty, free of
percent escapes (so `decodeCookie` returns it unchanged), and is not
valid JSON, `setOrCheckFidesConsentCookie` raises an error out of the
flow — the `JSON.parse` call of part_001 line 128 is not guarded.
Malformed content is never treated as an absent record. -/
theorem C5_load_malformed_raises (uuid now1 now2 d : Str)
    (hs : ';' ∉ d) (hp : '%' ∉ d) (hne : ¬ d = [])
    (hbad : jsonParse d = none) :
    setOrCheckFidesConsentCookie uuid now1 now2 (some d) =
      Except.error () := by
  simp only [setOrCheckFidesConsentCookie]
  rw [getCookie_some _ hs, pctDecode_no_pct d hp]
  simp only
  rw [if_neg hne, hbad]

theorem C5_load_malformed_raises_witness :
    ';' ∉ strL "@@" ∧ '%' ∉ strL "@@" ∧ ¬ strL "@@" = ([] : Str) ∧
    jsonParse (strL "@@") = none ∧
    setOrCheckFidesConsentCookie (strL "u2") (strL "s1") (strL "s2")
      (some (strL "@@")) = Except.error () :=
  ⟨by decide, by decide, by decide, by rfl,
   C5_load_malformed_raises (strL "u2") (strL "s1") (strL "s2")
     (strL "@@") (by decide) (by decide) (by decide) (by rfl)⟩

/-- C7: creating the default record persists its serialization, a
subsequent load returns the text unchanged (`decodeCookie` is the
identity on it) and parses back to the very record created, field for
field; and the persisted text contains neither of the reserved cookie
delimiters `;` and `=` (nor `%`, so it is percent-decoding-safe). The
hypotheses say the generated uuid and the two timestamps avoid `;`,
`%`, `=`, which `uuidv4()` and ISO-8601 output do. -/
theorem C7_createDefault_load_roundtrip (u n1 n2 : Str)
    (hu : rawSafe u = true) (h1 : rawSafe n1 = true)
    (h2 : rawSafe n2 = true) :
    (createConsentCookie u n1 n2 none).2 =
      some (stringify (consentObject u n1 n2)) ∧
    getCookie fidesName ((createConsentCookie u n1 n2 none).2) =
      Except.ok (some (stringify (consentObject u n1 n2))) ∧
    jsonParse (stringify (consentObject u n1 n2)) =
      some (consentObject u n1 n2) ∧
    (∀ u2 m1 m2 : Str,
      setOrCheckFidesConsentCookie u2 m1 m2
          ((createConsentCookie u n1 n2 none).2) =
        Except.ok (consentObject u n1 n2,
          (createConsentCookie u n1 n2 none).2)) ∧
    ';' ∉ stringify (consentObject u n1 n2) ∧
    '=' ∉ stringify (consentObject u n1 n2) ∧
    '%' ∉ stringify (consentObject u n1 n2) := by
  have hsemi := stringify_consent_no u n1 n2 hu h1 h2 ';' (Or.inl rfl)
  have hpct := stringify_consent_no u n1 n2 hu h1 h2 '%' (Or.inr (Or.inl rfl))
  have heq := stringify_consent_no u n1 n2 hu h1 h2 '=' (Or.inr (Or.inr rfl))
  have hjar : (createConsentCookie u n1 n2 none).2 =
      some (stringify (consentObject u n1 n2)) := by
    simp only [createConsentCookie]
    exact browserWrite_cookieLine _ _ hsemi
  refine ⟨hjar, ?_, jsonParse_stringify _ (consentObject_wf u n1 n2),
    ?_, hsemi, heq, hpct⟩
  · rw [hjar, getCookie_some _ hsemi, pctDecode_no_pct _ hpct]
  · intro u2 m1 m2
    rw [hjar]
    exact setOrCheck_load u2 m1 m2 u n1 n2 hu h1 h2

theorem C7_createDefault_load_roundtrip_witness :
    rawSafe (strL "ab12-cd") = true ∧
    getCookie fidesName
        ((createConsentCookie (strL "ab12-cd")
          (strL "2023-02-03T04:05:06.789Z")
          (strL "2023-02-03T04:05:06.790Z") none).2) =
      Except.ok (some (stringify (consentObject (strL "ab12-cd")
        (strL "2023-02-03T04:05:06.789Z")
        (strL "2023-02-03T04:05:06.790Z")))) ∧
    jsonParse (stringify (consentObject (strL "ab12-cd")
        (strL "2023-02-03T04:05:06.789Z")
        (strL "2023-02-03T04:05:06.790Z"))) =
      some (consentObject (strL "ab12-cd")
        (strL "2023-02-03T04:05:06.789Z")
        (strL "2023-02-03T04:05:06.790Z")) ∧
    ';' ∉ stringify (consentObject (strL "ab12-cd")
        (strL "2023-02-03T04:05:06.789Z")
        (strL "2023-02-03T04:05:06.790Z")) ∧
    '=' ∉ stringify (consentObject (strL "ab12-cd")
        (strL "2023-02-03T04:05:06.789Z")
        (strL "2023-02-03T04:05:06.790Z")) := by
  have h := C7_createDefault_load_roundtrip (strL "ab12-cd")
    (strL "2023-02-03T04:05:06.789Z") (strL "2023-02-03T04:05:06.790Z")
    (by decide) (by decide) (by decide)
  exact ⟨by decide, h.2.1, h.2.2.1, h.2.2.2.2.1, h.2.2.2.2.2.1⟩

/-! ## Typed model of the React app (part_001; App.tsx where noted)

JavaScript objects cast from `\x7b\x7d` have every field `undefined`, so
each interface field that the app may read before it is populated is an
`Option`. `none` is `undefined`. -/

/-- `PrivacyNotice` of interfaces.ts, restricted to the fields the app
reads. -/
structure PrivacyNotice where
  notice_key : Option Str
  privacy_notice_history_id : Option Str
  description : Option Str
deriving DecidableEq

/-- One element of `items` in the privacy-experience response. -/
structure PrivacyExperience where
  id : Option Str
  privacy_notices : Option (List PrivacyNotice)
deriving DecidableEq

/-- One element of the notices-served response array. -/
structure ServedResp where
  served_notice_history_id : Option Str
deriving DecidableEq

/-- The `noticeServed` state slot: initially the cast empty object
`\x7b\x7d as NoticesServedResponse`; `setNoticeServed(response[0])` stores
`undefined` when the response array is empty. -/
inductive ServedSlot where
  | emptyObj
  | undef
  | resp (r : ServedResp)
deriving DecidableEq

/-- Reading `noticeServed.served_notice_history_id`: a TypeError on
`undefined`, the field (possibly `undefined`) otherwise. -/
def ServedSlot.read : ServedSlot → Except Unit (Option Str)
  | .emptyObj => .ok none
  | .undef => .error ()
  | .resp r => .ok r.served_notice_history_id

/-- The component state the consent flow reads and writes. -/
structure AppState where
  formConsent : Bool
  deviceId : Str
  userGeo : Str
  privacyNotice : PrivacyNotice
  noticeServed : ServedSlot
  privacyExperience : PrivacyExperience
deriving DecidableEq

/-- The state after first render: `useState` initial values, the two
object slots cast from `\x7b\x7d`. -/
def initialAppState : AppState :=
  { formConsent := false, deviceId := [], userGeo := [],
    privacyNotice := ⟨none, none, none⟩, noticeServed := .emptyObj,
    privacyExperience := ⟨none, none⟩ }

/-- An outbound HTTP request, as the app issues it. -/
inductive NetCall where
  | locationReq
  | experienceReq (region : Str)
  | noticesServed (deviceId : Str) (expId : Option Str)
      (historyIds : List (Option Str)) (geo : Str)
  | preferences (deviceId : Str) (noticeHistoryId : Option Str)
      (preference : Str) (servedHistoryId : Option Str)
      (expId : Option Str) (geo : Str)
deriving DecidableEq

/-- JavaScript `String.prototype.endsWith`. -/
def endsWith (s suffix : Str) : Bool := suffix.isSuffixOf s

/-- The predicate of part_001 line 177:
`notice.notice_key?.endsWith("signup")` — `undefined` is falsy. -/
def noticeMatches (n : PrivacyNotice) : Bool :=
  match n.notice_key with
  | none => false
  | some k => endsWith k (strL "signup")

/-- The selection expression of part_001 line 177:
`noticeData?.privacy_notices?.find(notice => notice.notice_key?.endsWith("signup"))`. -/
def selectNotice (noticeData : Option PrivacyExperience) :
    Option PrivacyNotice :=
  match noticeData with
  | none => none
  | some e =>
    match e.privacy_notices with
    | none => none
    | some l => l.find? noticeMatches

/-- Model of `processNotices` (part_001 lines 172-197). `items` is the
`items` array of the experience response; `servedResp` is the JSON array
the notices-served endpoint answers with. Errors are the TypeErrors of
reading `noticeData.id` when `items` is empty and of indexing
`signUpNotice["privacy_notice_history_id"]` when no notice matched.
On success: the five `set*` calls as one state update, plus the single
notices-served request. -/
def processNotices (items : List PrivacyExperience) (fidesDeviceId : Str)
    (userGeo : Str) (servedRes : Except Unit (List ServedResp))
    (st : AppState) : Except Unit AppState × List NetCall :=
  match items.head? with
  | none => (.error (), [])
  | some noticeData =>
    match selectNotice (some noticeData) with
    | none => (.error (), [])
    | some signUpNotice =>
      match servedRes with
      | .error e =>
        (.error e,
         [NetCall.noticesServed fidesDeviceId noticeData.id
           [signUpNotice.privacy_notice_history_id] userGeo])
      | .ok servedResp =>
        (.ok { st with
            privacyNotice := signUpNotice,
            deviceId := fidesDeviceId,
            noticeServed := match servedResp.head? with
              | none => ServedSlot.undef
              | some r => ServedSlot.resp r,
            userGeo := userGeo,
            privacyExperience := noticeData },
         [NetCall.noticesServed fidesDeviceId noticeData.id
           [signUpNotice.privacy_notice_history_id] userGeo])

/-- Model of `recordConsentOnServer` (part_001 lines 104-122): builds
`bodyData` from state — this read can throw, see `ServedSlot.read`, and
then no request goes out — and issues the PATCH; `fetchOk = false` is a
rejected `fetch` (the request was issued), which rejects this async
function since the `fetch` is awaited inside it. -/
def recordConsentOnServer (st : AppState) (fetchOk : Bool) :
    Except Unit Unit × List NetCall :=
  match st.noticeServed.read with
  | .error e => (.error e, [])
  | .ok servedId =>
    ((if fetchOk then .ok () else .error ()),
     [NetCall.preferences st.deviceId
       st.privacyNotice.privacy_notice_history_id
       (if st.formConsent then strL "opt_in" else strL "opt_out")
       servedId st.privacyExperience.id st.userGeo])

/-- What a `handleSubmit` call leaves behind: the jar after the
synchronous cookie update, the outcome of the un-awaited
`recordConsentOnServer()` call — which lands in no one's hands — and
the requests that went out. -/
structure SubmitResult where
  jar : Option Str
  background : Except Unit Unit
  calls : List NetCall

/-- Model of `handleSubmit` (part_001 lines 69-73): the cookie update is
synchronous, so its exception rejects `handleSubmit` itself;
`recordConsentOnServer()` is not awaited, so `handleSubmit` resolves
without waiting on it and never sees its failure. -/
def handleSubmit (st : AppState) (jar : Option Str) (fetchOk : Bool) :
    Except Unit SubmitResult :=
  match updateConsentCookie st.formConsent jar with
  | .error e => .error e
  | .ok jar2 =>
    .ok ⟨jar2, (recordConsentOnServer st fetchOk).1,
      (recordConsentOnServer st fetchOk).2⟩

/-- JavaScript `toLowerCase` on the ASCII range the app handles. -/
def jsToLower (s : Str) : Str := s.map Char.toLower

/-- JavaScript `String.prototype.replace` with a nonempty string pattern:
only the first occurrence is replaced. -/
def replaceFirst (pat repl : Str) : Str → Str
  | [] => []
  | c :: rest =>
    if isPre pat (c :: rest) then repl ++ List.drop pat.length (c :: rest)
    else c :: replaceFirst pat repl rest

/-- `locationData?.location.toLowerCase().replace("-", "_")`
(part_001 line 151). -/
def resolveUserGeo (location : Str) : Str :=
  replaceFirst (strL "-") (strL "_") (jsToLower location)

/-- The spec's words for the RegionCode: the location string lowercased
with the separator `-` replaced by `_` — every occurrence. Stated for
comparison with `resolveUserGeo`, which the source computes. -/
def specRegionCode (location : Str) : Str :=
  (jsToLower location).map (fun c => if c = '-' then '_' else c)

/-- The parsed body of the location response; a missing property is
`none`. -/
structure LocationData where
  location : Option Str
  country : Option Str
deriving DecidableEq

/-- Model of `fetchRegionAndNotices` (part_001 lines 146-165) plus the
un-awaited `processNotices` call it makes. Oracles: `locRes` the result
of the location fetch+json (`error` = rejected, caught by the
`try/catch`); `expRes` the result of `fetchPrivacyExperiences` (`ok
none` = a falsy body, failing `if (noticesData)`); `servedRes` the
notices-served response. Returns the state after all settled updates,
the request trace, and whether an unhandled rejection escaped
`processNotices` (it is not awaited, so the `try/catch` never sees it
and no state is set). -/
def fetchRegionAndNotices (fidesDeviceId : Str)
    (locRes : Except Unit LocationData)
    (expRes : Except Unit (Option (List PrivacyExperience)))
    (servedRes : Except Unit (List ServedResp)) (st : AppState) :
    AppState × List NetCall × Bool :=
  match locRes with
  | .error _ => (st, [NetCall.locationReq], false)
  | .ok loc =>
    match loc.location with
    | none => (st, [NetCall.locationReq], false)
    | some locStr =>
      let userGeo := resolveUserGeo locStr
      match loc.country with
      | none => (st, [NetCall.locationReq], false)
      | some country =>
        let region := jsToLower country
        match expRes with
        | .error _ =>
          (st, [NetCall.locationReq, NetCall.experienceReq region], false)
        | .ok none =>
          (st, [NetCall.locationReq, NetCall.experienceReq region], false)
        | .ok (some items) =>
          match processNotices items fidesDeviceId userGeo servedRes st with
          | (.error _, calls) =>
            (st, NetCall.locationReq :: NetCall.experienceReq region ::
              calls, true)
          | (.ok st2, calls) =>
            (st2, NetCall.locationReq :: NetCall.experienceReq region ::
              calls, false)

/-- Repeated form submissions in one session: the user may retick the
checkbox before each one (`consent`), and each remote write may fail
(`fetchOk`). Component state other than the checkbox does not change
between submissions; the jar carries over. Returns the per-submission
results, the final jar, and every request the submissions issued. -/
def runSubmits : AppState → Option Str → List (Bool × Bool) →
    List (Except Unit SubmitResult) × Option Str × List NetCall
  | _, jar, [] => ([], jar, [])
  | st, jar, (consent, fok) :: rest =>
    match handleSubmit { st with formConsent := consent } jar fok with
    | .error e =>
      let p := runSubmits st jar rest
      (.error e :: p.1, p.2.1, p.2.2)
    | .ok r =>
      let p := runSubmits st r.jar rest
      (.ok r :: p.1, p.2.1, r.calls ++ p.2.2)

/-- Is a request a notices-served PATCH? -/
def isServedCall : NetCall → Bool
  | .noticesServed _ _ _ _ => true
  | _ => false

/-- `getCookie` of src/src/App.tsx (lines 111-121): same split logic as
part_001 but no `decodeCookie`, and an emptiness check on the popped
value before the `;` split. -/
def appGetCookie (name : Str) (jar : Option Str) : Option Str :=
  let value := ';' :: ' ' :: docCookieStr jar
  let parts := splitOnL (';' :: ' ' :: (name ++ ['='])) value
  if parts.length = 2 then
    let cookieValue := parts.getLastD []
    if cookieValue = [] then none
    else some ((splitOnL [';'] cookieValue).headD [])
  else none

/-- The inline cookie update of src/src/App.tsx `handleSubmit` (lines
44-50), reached only with consent `true`: sets the flag to the literal
`true` and re-persists the raw `JSON.stringify` text (no encoding). -/
def appConsentCookieUpdate (jar : Option Str) : Except Unit (Option Str) :=
  match appGetCookie fidesName jar with
  | none => .ok jar
  | some d =>
    if d = [] then .ok jar
    else
      match jsonParse d with
      | none => .error ()
      | some parsedData =>
        match setConsentField parsedData true with
        | none => .error ()
        | some parsedData2 =>
          .ok (browserWrite (cookieLine (stringify parsedData2)) jar)

/-- Model of `handleSubmit` of src/src/App.tsx (lines 38-78): everything
is inside `if (formData.consent)`, so with consent `false` nothing
happens at all; with consent `true` the cookie is updated and the
preferences PATCH is awaited, so its rejection rejects `handleSubmit`. -/
def handleSubmitApp (st : AppState) (jar : Option Str) (fetchOk : Bool) :
    Except Unit (Option Str × List NetCall) :=
  if st.formConsent then
    match appConsentCookieUpdate jar with
    | .error e => .error e
    | .ok jar2 =>
      match st.noticeServed.read with
      | .error e => .error e
      | .ok servedId =>
        if fetchOk then
          .ok (jar2, [NetCall.preferences st.deviceId
            st.privacyNotice.privacy_notice_history_id
            (if st.formConsent then strL "opt_in" else strL "opt_out")
            servedId st.privacyExperience.id st.userGeo])
        else .error ()
  else .ok (jar, [])

theorem find_first {α : Type} (p : α → Bool) :
    ∀ (l : List α) (n : α), l.find? p = some n →
      p n = true ∧ ∃ pre post, l = pre ++ n :: post ∧
        ∀ m ∈ pre, p m = false := by
  intro l
  induction l with
  | nil => intro n h; simp at h
  | cons a tl ih =>
    intro n h
    cases hpa : p a with
    | true =>
      rw [List.find?_cons_of_pos _ hpa] at h
      injection h with h
      subst h
      exact ⟨hpa, [], tl, rfl, by simp⟩
    | false =>
      rw [List.find?_cons_of_neg _ (by simp [hpa])] at h
      obtain ⟨hp, pre, post, hl, hall⟩ := ih n h
      refine ⟨hp, a :: pre, post, by rw [hl]; rfl, ?_⟩
      intro m hm
      rcases List.mem_cons.mp hm with hm | hm
      · rw [hm]; exact hpa
      · exact hall m hm

/-- C9: `selectNotice` is `find`, so for any experience it returns the
first notice in list order whose `notice_key` ends with `"signup"`
(a notice with no key never matches: `?.` makes `undefined` falsy);
when no key matches it returns `undefined`, a normal return value, not
a thrown error — and on the three-notice list keyed `marketing`,
`email_signup`, `other_signup` it picks the `email_signup` one, the
first match by position. -/
theorem C9_selectNotice_first_signup :
    (∀ (eid : Option Str) (l : List PrivacyNotice) (n : PrivacyNotice),
      selectNotice (some ⟨eid, some l⟩) = some n →
        noticeMatches n = true ∧
        ∃ pre post, l = pre ++ n :: post ∧
          ∀ m ∈ pre, noticeMatches m = false) ∧
    (∀ (eid : Option Str) (l : List PrivacyNotice),
      (∀ m ∈ l, noticeMatches m = false) →
        selectNotice (some ⟨eid, some l⟩) = none) ∧
    selectNotice (some ⟨some (strL "exp"), some
      [⟨some (strL "marketing"), some (strL "h1"), some (strL "d1")⟩,
       ⟨some (strL "email_signup"), some (strL "h2"), some (strL "d2")⟩,
       ⟨some (strL "other_signup"), some (strL "h3"), some (strL "d3")⟩]⟩) =
      some ⟨some (strL "email_signup"), some (strL "h2"),
        some (strL "d2")⟩ := by
  refine ⟨?_, ?_, by decide⟩
  · intro eid l n h
    exact find_first noticeMatches l n h
  · intro eid l h
    simp only [selectNotice]
    rw [List.find?_eq_none]
    intro m hm
    simp [h m hm]

theorem C9_selectNotice_first_signup_witness :
    noticeMatches ⟨some (strL "a_signup"), some (strL "h9"), none⟩ =
      true ∧
    ∃ pre post,
      [(⟨some (strL "a_signup"), some (strL "h9"), none⟩ :
        PrivacyNotice)] = pre ++
        ⟨some (strL "a_signup"), some (strL "h9"), none⟩ :: post ∧
      ∀ m ∈ pre, noticeMatches m = false :=
  C9_selectNotice_first_signup.1 (some (strL "e"))
    [⟨some (strL "a_signup"), some (strL "h9"), none⟩]
    ⟨some (strL "a_signup"), some (strL "h9"), none⟩ (by decide)

theorem replaceFirst_single (s : Str) (h : s.count '-' ≤ 1) :
    replaceFirst (strL "-") (strL "_") s =
      s.map (fun c => if c = '-' then '_' else c) := by
  induction s with
  | nil => rfl
  | cons c rest ih =>
    by_cases hc : c = '-'
    · subst hc
      have hcount : rest.count '-' = 0 := by
        rw [List.count_cons] at h
        simp at h
        omega
      have hnot : '-' ∉ rest := by
        rw [← List.count_eq_zero]
        exact hcount
      have hmap : rest.map (fun c => if c = '-' then '_' else c) = rest := by
        have h2 : ∀ x ∈ rest,
            (fun c => if c = '-' then '_' else c) x = id x := by
          intro x hx
          simp only [id]
          exact if_neg (fun he => hnot (by rw [← he]; exact hx))
        rw [List.map_congr_left h2, List.map_id]
      simp [replaceFirst, isPre, strL, hmap]
    · have hrec : rest.count '-' ≤ 1 := by
        rw [List.count_cons] at h
        omega
      have hpre : isPre (strL "-") (c :: rest) = false := by
        simp [isPre, strL]
        exact fun he => hc he.symm
      simp only [replaceFirst, hpre, Bool.false_eq_true, if_false,
        List.map_cons, ih hrec, if_neg hc]

/-- C8 (counterexample): `replace("-", "_")` rewrites only the first
separator, so a location with two separators is not separator-normalized:
`"AA-BB-CC"` resolves to `"aa_bb-cc"`, not the claimed `"aa_bb_cc"`. -/
theorem C8_regioncode_counterexample :
    resolveUserGeo (strL "AA-BB-CC") = strL "aa_bb-cc" ∧
    specRegionCode (strL "AA-BB-CC") = strL "aa_bb_cc" ∧
    ¬ resolveUserGeo (strL "AA-BB-CC") =
        specRegionCode (strL "AA-BB-CC") := by
  refine ⟨by decide, by decide, by decide⟩

/-- C8 (amended): the resolver lowercases the location and replaces only
the FIRST `-` with `_`; this agrees with the spec's separator-normalized
RegionCode exactly when the location has at most one separator — in
particular `"en-US"` resolves to `"en_us"`. The catalog is queried with
the lowercased country code (`region=us` for `"US"`): whenever the
location fetch yields a location and a country, the trace is the
location request followed by the experience request for
`jsToLower country`, and if the run updates state at all, the stored
`userGeo` is `resolveUserGeo location`. -/
theorem C8_geo_resolution (fid loc country : Str)
    (expRes : Except Unit (Option (List PrivacyExperience)))
    (servedRes : Except Unit (List ServedResp)) (st : AppState) :
    (∃ rest, (fetchRegionAndNotices fid (Except.ok ⟨some loc, some country⟩)
        expRes servedRes st).2.1 =
      NetCall.locationReq :: NetCall.experienceReq (jsToLower country) ::
        rest) ∧
    ((fetchRegionAndNotices fid (Except.ok ⟨some loc, some country⟩)
        expRes servedRes st).1 = st ∨
     (fetchRegionAndNotices fid (Except.ok ⟨some loc, some country⟩)
        expRes servedRes st).1.userGeo = resolveUserGeo loc) ∧
    (∀ s : Str, (jsToLower s).count '-' ≤ 1 →
      resolveUserGeo s = specRegionCode s) ∧
    resolveUserGeo (strL "en-US") = strL "en_us" ∧
    jsToLower (strL "US") = strL "us" := by
  refine ⟨?_, ?_, ?_, by decide, by decide⟩
  · simp only [fetchRegionAndNotices]
    cases expRes with
    | error e => exact ⟨[], rfl⟩
    | ok o =>
      cases o with
      | none => exact ⟨[], rfl⟩
      | some items =>
        simp only
        cases hp : processNotices items fid (resolveUserGeo loc)
            servedRes st with
        | mk outc calls =>
          cases outc with
          | error e => exact ⟨calls, rfl⟩
          | ok st2 => exact ⟨calls, rfl⟩
  · simp only [fetchRegionAndNotices]
    cases expRes with
    | error e => exact Or.inl rfl
    | ok o =>
      cases o with
      | none => exact Or.inl rfl
      | some items =>
        simp only
        cases hp : processNotices items fid (resolveUserGeo loc)
            servedRes st with
        | mk outc calls =>
          cases outc with
          | error e => exact Or.inl rfl
          | ok st2 =>
            refine Or.inr ?_
            change st2.userGeo = resolveUserGeo loc
            simp only [processNotices] at hp
            cases hitems : items.head? with
            | none => simp [hitems] at hp
            | some noticeData =>
              simp only [hitems] at hp
              cases hsel : selectNotice (some noticeData) with
              | none => simp [hsel] at hp
              | some signUpNotice =>
                simp only [hsel] at hp
                cases servedRes with
                | error e => simp at hp
                | ok servedResp =>
                  simp only [Prod.mk.injEq, Except.ok.injEq] at hp
                  rw [← hp.1]
  · intro s h
    simpa [resolveUserGeo, specRegionCode] using
      replaceFirst_single (jsToLower s) h

theorem C8_geo_resolution_witness :
    (∃ rest, (fetchRegionAndNotices (strL "dev1")
        (Except.ok ⟨some (strL "en-US"), some (strL "US")⟩)
        (Except.ok none) (Except.ok []) initialAppState).2.1 =
      NetCall.locationReq ::
        NetCall.experienceReq (jsToLower (strL "US")) :: rest) ∧
    resolveUserGeo (strL "en-US") = strL "en_us" :=
  ⟨(C8_geo_resolution (strL "dev1") (strL "en-US") (strL "US")
      (Except.ok none) (Except.ok []) initialAppState).1,
   (C8_geo_resolution (strL "dev1") (strL "en-US") (strL "US")
      (Except.ok none) (Except.ok []) initialAppState).2.2.2.1⟩

theorem runSubmits_calls (st : AppState) :
    ∀ (jar : Option Str) (subs : List (Bool × Bool)),
      ∀ c ∈ (runSubmits st jar subs).2.2, ∃ pref servedId,
        ServedSlot.read st.noticeServed = Except.ok servedId ∧
        c = NetCall.preferences st.deviceId
          st.privacyNotice.privacy_notice_history_id pref servedId
          st.privacyExperience.id st.userGeo := by
  intro jar subs
  induction subs generalizing jar with
  | nil => intro c hc; simp [runSubmits] at hc
  | cons hd rest ih =>
    obtain ⟨consent, fok⟩ := hd
    intro c hc
    simp only [runSubmits] at hc
    cases hsub : handleSubmit { st with formConsent := consent } jar fok with
    | error e =>
      rw [hsub] at hc
      exact ih jar c hc
    | ok r =>
      rw [hsub] at hc
      simp only [List.mem_append] at hc
      rcases hc with hc | hc
      · simp only [handleSubmit] at hsub
        cases hup : updateConsentCookie consent jar with
        | error e => rw [hup] at hsub; exact absurd hsub (by simp)
        | ok jar2 =>
          rw [hup] at hsub
          simp only [Except.ok.injEq] at hsub
          rw [← hsub] at hc
          simp only [recordConsentOnServer] at hc
          cases hread : ServedSlot.read st.noticeServed with
          | error e => rw [hread] at hc; simp at hc
          | ok servedId =>
            rw [hread] at hc
            simp only [List.mem_singleton] at hc
            exact ⟨if consent then strL "opt_in" else strL "opt_out",
              servedId, rfl, hc⟩
      · exact ih r.jar c hc

theorem runSubmits_no_served (st : AppState) (jar : Option Str)
    (subs : List (Bool × Bool)) :
    ((runSubmits st jar subs).2.2).countP isServedCall = 0 := by
  rw [List.countP_eq_zero]
  intro c hc
  obtain ⟨pref, servedId, -, hcall⟩ := runSubmits_calls st jar subs c hc
  rw [hcall]
  simp [isServedCall]

theorem processNotices_served_once (items : List PrivacyExperience)
    (fid geo : Str) (servedRes : Except Unit (List ServedResp))
    (st : AppState) :
    ((processNotices items fid geo servedRes st).2).countP isServedCall
      ≤ 1 := by
  simp only [processNotices]
  cases items.head? with
  | none => simp
  | some noticeData =>
    cases hsel : selectNotice (some noticeData) with
    | none => simp [hsel]
    | some signUpNotice =>
      cases servedRes with
      | error e => simp [hsel, isServedCall]
      | ok servedResp => simp [hsel, isServedCall]

theorem startup_served_once (fid : Str) (locRes : Except Unit LocationData)
    (expRes : Except Unit (Option (List PrivacyExperience)))
    (servedRes : Except Unit (List ServedResp)) (st : AppState) :
    ((fetchRegionAndNotices fid locRes expRes servedRes st).2.1).countP
      isServedCall ≤ 1 := by
  simp only [fetchRegionAndNotices]
  cases locRes with
  | error e => simp [isServedCall]
  | ok loc =>
    cases hloc : loc.location with
    | none => simp [hloc, isServedCall]
    | some locStr =>
      simp only [hloc]
      cases hc : loc.country with
      | none => simp [hc, isServedCall]
      | some country =>
        simp only [hc]
        cases expRes with
        | error e => simp [isServedCall]
        | ok o =>
          cases o with
          | none => simp [isServedCall]
          | some items =>
            dsimp only
            have h := processNotices_served_once items fid
              (resolveUserGeo locStr) servedRes st
            cases hp : processNotices items fid (resolveUserGeo locStr)
                servedRes st with
            | mk outc calls =>
              rw [hp] at h
              cases outc with
              | error e => simpa [isServedCall] using h
              | ok st2 => simpa [isServedCall] using h

/-- C2: in one session, the notices-served PATCH goes out at most once,
during startup (`fetchRegionAndNotices`), and never from the submit
path: over any number of submissions the submit trace holds no
notices-served request, and every request it does hold is a preferences
PATCH whose `served_notice_history_id` is the single value read from the
session's `noticeServed` state — the one set by the lone `Served`
transition — identical across all submissions. -/
theorem C2_served_once_per_session (fid : Str)
    (locRes : Except Unit LocationData)
    (expRes : Except Unit (Option (List PrivacyExperience)))
    (servedRes : Except Unit (List ServedResp)) (st : AppState)
    (jar : Option Str) (subs : List (Bool × Bool)) :
    ((fetchRegionAndNotices fid locRes expRes servedRes st).2.1).countP
        isServedCall ≤ 1 ∧
    ((runSubmits st jar subs).2.2).countP isServedCall = 0 ∧
    (∀ c ∈ (runSubmits st jar subs).2.2, ∃ pref servedId,
      ServedSlot.read st.noticeServed = Except.ok servedId ∧
      c = NetCall.preferences st.deviceId
        st.privacyNotice.privacy_notice_history_id pref servedId
        st.privacyExperience.id st.userGeo) :=
  ⟨startup_served_once fid locRes expRes servedRes st,
   runSubmits_no_served st jar subs,
   runSubmits_calls st jar subs⟩

theorem C2_served_once_per_session_witness :
    ((runSubmits ⟨false, strL "d", strL "us",
        ⟨some (strL "k_signup"), some (strL "ph1"), some (strL "desc")⟩,
        ServedSlot.resp ⟨some (strL "sh1")⟩, ⟨some (strL "e1"), none⟩⟩
        none [(true, true), (false, true)]).2.2).countP isServedCall
      = 0 ∧
    (∃ pref servedId,
      ServedSlot.read (ServedSlot.resp ⟨some (strL "sh1")⟩) =
        Except.ok servedId ∧
      NetCall.preferences (strL "d") (some (strL "ph1")) (strL "opt_in")
          (some (strL "sh1")) (some (strL "e1")) (strL "us") =
        NetCall.preferences (strL "d") (some (strL "ph1")) pref servedId
          (some (strL "e1")) (strL "us")) :=
  ⟨(C2_served_once_per_session (strL "f") (Except.error ())
      (Except.error ()) (Except.error ())
      ⟨false, strL "d", strL "us",
        ⟨some (strL "k_signup"), some (strL "ph1"), some (strL "desc")⟩,
        ServedSlot.resp ⟨some (strL "sh1")⟩, ⟨some (strL "e1"), none⟩⟩
      none [(true, true), (false, true)]).2.1,
   (C2_served_once_per_session (strL "f") (Except.error ())
      (Except.error ()) (Except.error ())
      ⟨false, strL "d", strL "us",
        ⟨some (strL "k_signup"), some (strL "ph1"), some (strL "desc")⟩,
        ServedSlot.resp ⟨some (strL "sh1")⟩, ⟨some (strL "e1"), none⟩⟩
      none [(true, true), (false, true)]).2.2
     (NetCall.preferences (strL "d") (some (strL "ph1")) (strL "opt_in")
       (some (strL "sh1")) (some (strL "e1")) (strL "us")) (by decide)⟩

/-- C3 (counterexample): in the `handleSubmit` of src/src/App.tsx
everything is inside `if (formData.consent)`, so submitting with consent
`false` sends no PreferenceSubmission at all — the claimed `"opt_out"`
submission never happens in that variant. The state is fully populated
(notice, served reference, experience, geography all present), yet the
trace is empty and the jar untouched. -/
theorem C3_optout_counterexample :
    handleSubmitApp ⟨false, strL "d", strL "us",
        ⟨some (strL "email_signup"), some (strL "ph1"), some (strL "dsc")⟩,
        ServedSlot.resp ⟨some (strL "sh1")⟩, ⟨some (strL "e1"), none⟩⟩
      none true = Except.ok (none, []) := by rfl

/-- C3 (amended): the preference value always agrees with the consent
flag where a submission is built — `recordConsentOnServer` of part_001
sends `"opt_in"` iff the flag is true and `"opt_out"` iff it is false,
in both cases one submission — but only the part_001 variant submits in
both cases: the src/src/App.tsx `handleSubmit` submits nothing when the
flag is false. -/
theorem C3_preference_mapping (st : AppState) (servedId : Option Str)
    (hread : st.noticeServed.read = Except.ok servedId) :
    recordConsentOnServer st true =
      (Except.ok (), [NetCall.preferences st.deviceId
        st.privacyNotice.privacy_notice_history_id
        (if st.formConsent then strL "opt_in" else strL "opt_out")
        servedId st.privacyExperience.id st.userGeo]) ∧
    ((if st.formConsent then strL "opt_in" else strL "opt_out") =
        strL "opt_in" ↔ st.formConsent = true) ∧
    (∀ jar : Option Str, st.formConsent = false →
      handleSubmitApp st jar true = Except.ok (jar, [])) := by
  refine ⟨?_, ?_, ?_⟩
  · simp only [recordConsentOnServer, hread]
    simp
  · cases hfc : st.formConsent with
    | true => simp
    | false => simp; decide
  · intro jar hfc
    simp [handleSubmitApp, hfc]

theorem C3_preference_mapping_witness :
    ServedSlot.read (ServedSlot.resp ⟨some (strL "sh2")⟩) =
      Except.ok (some (strL "sh2")) ∧
    recordConsentOnServer ⟨true, strL "d2", strL "fr",
        ⟨some (strL "email_signup"), some (strL "ph2"), some (strL "ds")⟩,
        ServedSlot.resp ⟨some (strL "sh2")⟩, ⟨some (strL "e2"), none⟩⟩
      true =
      (Except.ok (), [NetCall.preferences (strL "d2") (some (strL "ph2"))
        (if true then strL "opt_in" else strL "opt_out")
        (some (strL "sh2")) (some (strL "e2")) (strL "fr")]) :=
  ⟨by rfl,
   (C3_preference_mapping ⟨true, strL "d2", strL "fr",
      ⟨some (strL "email_signup"), some (strL "ph2"), some (strL "ds")⟩,
      ServedSlot.resp ⟨some (strL "sh2")⟩, ⟨some (strL "e2"), none⟩⟩
     (some (strL "sh2")) (by rfl)).1⟩

/-- C4 (counterexample): the served-recorder answers the empty array,
yet the reconciliation run does NOT fail: `processNotices` completes
(no unhandled rejection, third component `false`), every state slot is
set — the description is present so the button is not disabled — and
`noticeServed` is `undefined`; submitting then RESOLVES successfully
(`Except.ok`) with the cookie updated and zero requests issued: the
`TypeError` on `noticeServed.served_notice_history_id` is confined to
the un-awaited background call, so submit is neither blocked nor
rejected with a fault. -/
theorem C4_empty_served_counterexample :
    (fetchRegionAndNotices (strL "dev")
        (Except.ok ⟨some (strL "en-US"), some (strL "US")⟩)
        (Except.ok (some [⟨some (strL "exp1"),
          some [⟨some (strL "email_signup"), some (strL "ph1"),
            some (strL "desc")⟩]⟩]))
        (Except.ok []) initialAppState).1.noticeServed =
      ServedSlot.undef ∧
    (fetchRegionAndNotices (strL "dev")
        (Except.ok ⟨some (strL "en-US"), some (strL "US")⟩)
        (Except.ok (some [⟨some (strL "exp1"),
          some [⟨some (strL "email_signup"), some (strL "ph1"),
            some (strL "desc")⟩]⟩]))
        (Except.ok []) initialAppState).2.2 = false ∧
    (fetchRegionAndNotices (strL "dev")
        (Except.ok ⟨some (strL "en-US"), some (strL "US")⟩)
        (Except.ok (some [⟨some (strL "exp1"),
          some [⟨some (strL "email_signup"), some (strL "ph1"),
            some (strL "desc")⟩]⟩]))
        (Except.ok []) initialAppState).1.privacyNotice.description =
      some (strL "desc") ∧
    handleSubmit (fetchRegionAndNotices (strL "dev")
        (Except.ok ⟨some (strL "en-US"), some (strL "US")⟩)
        (Except.ok (some [⟨some (strL "exp1"),
          some [⟨some (strL "email_signup"), some (strL "ph1"),
            some (strL "desc")⟩]⟩]))
        (Except.ok []) initialAppState).1 none true =
      Except.ok ⟨none, Except.error (), []⟩ :=
  ⟨by decide, by decide, by decide, by rfl⟩

/-- C4 (amended): with an empty served response the run still reaches
the fully-updated state, whose served slot is `undefined`; from any such
state a submission is never SENT with a missing served reference — the
body construction faults first — but the fault stays in the un-awaited
background call: `handleSubmit` itself resolves `ok` after the cookie
update, so the submit action is neither blocked nor rejected. -/
theorem C4_empty_served_response (items : List PrivacyExperience)
    (fid geo : Str) (st : AppState) (noticeData : PrivacyExperience)
    (signUpNotice : PrivacyNotice)
    (hhead : items.head? = some noticeData)
    (hsel : selectNotice (some noticeData) = some signUpNotice) :
    processNotices items fid geo (Except.ok []) st =
      (Except.ok { st with
        privacyNotice := signUpNotice,
        deviceId := fid, noticeServed := ServedSlot.undef,
        userGeo := geo, privacyExperience := noticeData },
       [NetCall.noticesServed fid noticeData.id
         [signUpNotice.privacy_notice_history_id] geo]) ∧
    (∀ (st3 : AppState) (jar jar2 : Option Str) (fok : Bool),
      st3.noticeServed = ServedSlot.undef →
      updateConsentCookie st3.formConsent jar = Except.ok jar2 →
      handleSubmit st3 jar fok = Except.ok ⟨jar2, Except.error (), []⟩) := by
  constructor
  · simp only [processNotices, hhead, hsel]
    rfl
  · intro st3 jar jar2 fok hundef hup
    simp only [handleSubmit, hup, recordConsentOnServer, hundef,
      ServedSlot.read]

theorem C4_empty_served_response_witness :
    ([⟨some (strL "x1"), some [⟨some (strL "b_signup"), some (strL "p9"),
        some (strL "dd")⟩]⟩] :
      List PrivacyExperience).head? = some ⟨some (strL "x1"),
        some [⟨some (strL "b_signup"), some (strL "p9"),
          some (strL "dd")⟩]⟩ ∧
    processNotices [⟨some (strL "x1"),
        some [⟨some (strL "b_signup"), some (strL "p9"),
          some (strL "dd")⟩]⟩] (strL "fd") (strL "geo") (Except.ok [])
        initialAppState =
      (Except.ok { initialAppState with
        privacyNotice := ⟨some (strL "b_signup"), some (strL "p9"),
          some (strL "dd")⟩,
        deviceId := strL "fd", noticeServed := ServedSlot.undef,
        userGeo := strL "geo",
        privacyExperience := ⟨some (strL "x1"),
          some [⟨some (strL "b_signup"), some (strL "p9"),
            some (strL "dd")⟩]⟩ },
       [NetCall.noticesServed (strL "fd") (some (strL "x1"))
         [some (strL "p9")] (strL "geo")]) :=
  ⟨by decide,
   (C4_empty_served_response [⟨some (strL "x1"),
       some [⟨some (strL "b_signup"), some (strL "p9"),
         some (strL "dd")⟩]⟩] (strL "fd") (strL "geo") initialAppState
     ⟨some (strL "x1"), some [⟨some (strL "b_signup"), some (strL "p9"),
       some (strL "dd")⟩]⟩
     ⟨some (strL "b_signup"), some (strL "p9"), some (strL "dd")⟩
     (by decide) (by decide)).1⟩

/-- C10 (counterexample): the remote preference write fails, yet
`handleSubmit` RESOLVES (`Except.ok`): the rejected
`recordConsentOnServer()` promise is un-awaited, so the failure reaches
no caller; the preferences request did go out and the (here trivial,
cookie absent) cookie step's result stands. -/
theorem C10_failure_not_surfaced_counterexample :
    handleSubmit ⟨true, strL "d", strL "us",
        ⟨some (strL "email_signup"), some (strL "ph1"), some (strL "dsc")⟩,
        ServedSlot.resp ⟨some (strL "sh1")⟩, ⟨some (strL "e1"), none⟩⟩
      none false =
      Except.ok ⟨none, Except.error (),
        [NetCall.preferences (strL "d") (some (strL "ph1"))
          (strL "opt_in") (some (strL "sh1")) (some (strL "e1"))
          (strL "us")]⟩ := by rfl

/-- C10 (amended): when the remote preference write fails, `handleSubmit`
still resolves `ok` — the failure lands in the un-awaited background
promise, never in the caller's hands — while the cookie update performed
before it indeed stands: the resulting jar is exactly the one the
synchronous `updateConsentCookie` produced, with no rollback, so local
and remote state may silently diverge. -/
theorem C10_submit_failure_swallowed (st : AppState)
    (jar jar2 : Option Str) (servedId : Option Str)
    (hup : updateConsentCookie st.formConsent jar = Except.ok jar2)
    (hread : st.noticeServed.read = Except.ok servedId) :
    handleSubmit st jar false =
      Except.ok ⟨jar2, Except.error (),
        [NetCall.preferences st.deviceId
          st.privacyNotice.privacy_notice_history_id
          (if st.formConsent then strL "opt_in" else strL "opt_out")
          servedId st.privacyExperience.id st.userGeo]⟩ := by
  simp only [handleSubmit, hup, recordConsentOnServer, hread]
  simp

theorem C10_submit_failure_swallowed_witness :
    updateConsentCookie true none = Except.ok none ∧
    handleSubmit ⟨true, strL "d3", strL "gb",
        ⟨some (strL "e_signup"), some (strL "p3"), some (strL "d3d")⟩,
        ServedSlot.resp ⟨some (strL "s3")⟩, ⟨some (strL "x3"), none⟩⟩
      none false =
      Except.ok ⟨none, Except.error (),
        [NetCall.preferences (strL "d3") (some (strL "p3"))
          (if true then strL "opt_in" else strL "opt_out")
          (some (strL "s3")) (some (strL "x3")) (strL "gb")]⟩ :=
  ⟨by rfl,
   C10_submit_failure_swallowed ⟨true, strL "d3", strL "gb",
       ⟨some (strL "e_signup"), some (strL "p3"), some (strL "d3d")⟩,
       ServedSlot.resp ⟨some (strL "s3")⟩, ⟨some (strL "x3"), none⟩⟩
     none none (some (strL "s3")) (by rfl) (by rfl)⟩
